import Mathlib

/-!
Verification of the mqtt-dali-controller firmware against its natural-language
specification.  The definitions below are a shallow embedding of the C++
sources (`src/dali.cpp`, `src/lights.cpp`, `src/config.cpp`, `src/util.cpp`):
pure functions become Lean functions, stateful methods become explicit
state-passing functions, machine integers become `Nat`/`Int` with explicit
masking where overflow matters, and transmit success is threaded through an
explicit oracle.
-/

namespace MqttDali

/-! ## Constants from `dali.h` -/

/-- `Dali::MAX_ADDR = 63`. -/
def MAX_ADDR : ℕ := 63

/-- `Dali::num_addresses = MAX_ADDR + 1`. -/
def numAddresses : ℕ := 64

/-- `Dali::MAX_GROUP = 15`. -/
def MAX_GROUP : ℕ := 15

/-- `Dali::num_groups = MAX_GROUP + 1` (group bitset width used by `groups_t`). -/
def numGroups : ℕ := 16

/-- `Dali::MAX_LEVEL = 254`. -/
def MAX_LEVEL : ℕ := 254

/-- `Dali::LEVEL_NO_CHANGE = 255` (the "no change" sentinel level). -/
def LEVEL_NO_CHANGE : ℕ := 255

/-- `Dali::BROADCAST_ADDRESS = 0x7F`. -/
def BROADCAST_ADDRESS : ℕ := 0x7F

/-- `Dali::DATA_POWER_LEVEL = 0x00` (selector bit: direct arc power level). -/
def DATA_POWER_LEVEL : ℕ := 0x00

/-- `Dali::DATA_COMMAND = 0x01` (selector bit: command). -/
def DATA_COMMAND : ℕ := 0x01

/-- `Dali::GROUP_ADDRESS`.  The header revision under `src/` predates the
group support in `dali.cpp`; the value is fixed by the documented byte layout
("Group address (3 bits: 100)" shifted left once must give `0x80`), i.e.
`GROUP_ADDRESS = 0x40`. -/
def GROUP_ADDRESS : ℕ := 0x40

/-- `Dali::COMMAND_STORE_ACTUAL_LEVEL_IN_DTR = 0x21`. -/
def COMMAND_STORE_ACTUAL_LEVEL_IN_DTR : ℕ := 0x21

/-- `Dali::COMMAND_SET_SYSTEM_FAILURE_LEVEL_FROM_DTR = 0x2C`. -/
def COMMAND_SET_SYSTEM_FAILURE_LEVEL_FROM_DTR : ℕ := 0x2C

/-- `Dali::COMMAND_SET_POWER_ON_LEVEL_FROM_DTR = 0x2D`. -/
def COMMAND_SET_POWER_ON_LEVEL_FROM_DTR : ℕ := 0x2D

/-- `Dali::COMMAND_ADD_TO_GROUP = 0x60`. -/
def COMMAND_ADD_TO_GROUP : ℕ := 0x60

/-- `Dali::COMMAND_REMOVE_FROM_GROUP = 0x70`. -/
def COMMAND_REMOVE_FROM_GROUP : ℕ := 0x70

/-! ## Bus frames and symbols (`Dali::tx_frame`, `Dali::byte_to_symbols`)

A `Frame` is one 16-bit forward frame (address byte, data byte).  `tx_frame`
builds a single RMT symbol array holding the frame once, or twice back-to-back
when `repeat` is set, and hands it to the hardware in one blocking write. -/

/-- One forward frame: the address byte and the data byte. -/
structure Frame where
  addr : ℕ
  data : ℕ
deriving DecidableEq, Repr

/-- RMT symbols used by `Dali`: the two half-bit Manchester cells for a 0 bit,
for a 1 bit, and the combined stop + minimum idle gap. -/
inductive Sym where
  | dali0
  | dali1
  | stopIdle
deriving DecidableEq, Repr

/-- `Dali::byte_to_symbols`: most-significant bit first, one symbol per bit. -/
def byteToSymbols (value : ℕ) : List Sym :=
  (List.range 8).map (fun i => if (value >>> (7 - i)) &&& 1 = 1 then Sym.dali1 else Sym.dali0)

/-- The symbol sequence of a single forward frame inside `Dali::tx_frame`:
start bit, 8 address bits, 8 data bits, stop bits plus idle gap. -/
def frameSymbols (f : Frame) : List Sym :=
  Sym.dali1 :: (byteToSymbols f.addr ++ byteToSymbols f.data ++ [Sym.stopIdle])

/-- `Dali::tx_frame` as the list of frames put on the bus by the single
`rmtWriteBlocking` call: the frame once, or twice back-to-back when `rep`. -/
def txFrame (address data : ℕ) (rep : Bool) : List Frame :=
  if rep then [⟨address, data⟩, ⟨address, data⟩] else [⟨address, data⟩]

/-- The full symbol array written by `Dali::tx_frame`. -/
def txFrameSymbols (address data : ℕ) (rep : Bool) : List Sym :=
  (txFrame address data rep).flatMap frameSymbols

/-- `Dali::tx_address_power_level`: out-of-range addresses send nothing
(and report success); otherwise one single (unrepeated) frame. -/
def txAddressPowerLevel (address level : ℕ) : List Frame :=
  if address > MAX_ADDR then []
  else txFrame ((address <<< 1) ||| DATA_POWER_LEVEL) level false

/-- `Dali::tx_group_power_level`: out-of-range groups send nothing; otherwise
one single (unrepeated) frame. -/
def txGroupPowerLevel (group level : ℕ) : List Frame :=
  if group > MAX_GROUP then []
  else txFrame ((GROUP_ADDRESS <<< 1) ||| (group <<< 1) ||| DATA_POWER_LEVEL) level false

/-- `Dali::tx_address_command`. -/
def txAddressCommand (address command : ℕ) (rep : Bool) : List Frame :=
  txFrame ((address <<< 1) ||| DATA_COMMAND) command rep

/-- `Dali::tx_group_command`. -/
def txGroupCommand (group command : ℕ) (rep : Bool) : List Frame :=
  txFrame ((GROUP_ADDRESS <<< 1) ||| (group <<< 1) ||| DATA_COMMAND) command rep

/-- `Dali::tx_broadcast_command`. -/
def txBroadcastCommand (command : ℕ) (rep : Bool) : List Frame :=
  txFrame ((BROADCAST_ADDRESS <<< 1) ||| DATA_COMMAND) command rep

/-- `Dali::tx_address_group_add`: repeated add-to-group command to an address. -/
def txAddressGroupAdd (address group : ℕ) : List Frame :=
  txAddressCommand address (COMMAND_ADD_TO_GROUP + group) true

/-- `Dali::tx_group_empty`: repeated remove-from-group command, addressed to
the group itself. -/
def txGroupEmpty (group : ℕ) : List Frame :=
  txGroupCommand group (COMMAND_REMOVE_FROM_GROUP + group) true

/-- `Dali::tx_set_dtr_from_actual_level`: repeated broadcast command. -/
def txSetDtrFromActualLevel : List Frame :=
  txBroadcastCommand COMMAND_STORE_ACTUAL_LEVEL_IN_DTR true

/-- `Dali::tx_set_power_on_level_from_dtr`: repeated broadcast command. -/
def txSetPowerOnLevelFromDtr : List Frame :=
  txBroadcastCommand COMMAND_SET_POWER_ON_LEVEL_FROM_DTR true

/-- `Dali::tx_set_system_failure_level_from_dtr`: repeated broadcast command. -/
def txSetSystemFailureLevelFromDtr : List Frame :=
  txBroadcastCommand COMMAND_SET_SYSTEM_FAILURE_LEVEL_FROM_DTR true

/-! Basic facts about frame repetition. -/

theorem txFrame_repeat (address data : ℕ) :
    txFrame address data true = [⟨address, data⟩, ⟨address, data⟩] := rfl

theorem txFrame_single (address data : ℕ) :
    txFrame address data false = [⟨address, data⟩] := rfl

/-- C5: Every bus frame carrying a command that changes non-volatile
parameters or group membership (ADD_TO_GROUP, REMOVE_FROM_GROUP,
STORE_ACTUAL_LEVEL_IN_DTR, SET_POWER_ON_LEVEL_FROM_DTR,
SET_SYSTEM_FAILURE_LEVEL_FROM_DTR) is transmitted twice back-to-back within a
single `tx_frame` call, while every direct power-level frame (per-address or
per-group) is transmitted exactly once. -/
theorem c5_repeat_discipline (address group level : ℕ)
    (haddr : address ≤ MAX_ADDR) (hgroup : group ≤ MAX_GROUP) :
    (∃ f, txAddressGroupAdd address group = [f, f] ∧
        f.data = COMMAND_ADD_TO_GROUP + group ∧
        txFrameSymbols f.addr f.data true = frameSymbols f ++ frameSymbols f)
    ∧ (∃ f, txGroupEmpty group = [f, f] ∧
        f.data = COMMAND_REMOVE_FROM_GROUP + group)
    ∧ (∃ f, txSetDtrFromActualLevel = [f, f] ∧
        f.data = COMMAND_STORE_ACTUAL_LEVEL_IN_DTR)
    ∧ (∃ f, txSetPowerOnLevelFromDtr = [f, f] ∧
        f.data = COMMAND_SET_POWER_ON_LEVEL_FROM_DTR)
    ∧ (∃ f, txSetSystemFailureLevelFromDtr = [f, f] ∧
        f.data = COMMAND_SET_SYSTEM_FAILURE_LEVEL_FROM_DTR)
    ∧ (∃ f, txAddressPowerLevel address level = [f] ∧ f.data = level)
    ∧ (∃ f, txGroupPowerLevel group level = [f] ∧ f.data = level) := by
  refine ⟨⟨_, rfl, rfl, ?_⟩, ⟨_, rfl, rfl⟩, ⟨_, rfl, rfl⟩, ⟨_, rfl, rfl⟩, ⟨_, rfl, rfl⟩,
      ⟨⟨(address <<< 1) ||| DATA_POWER_LEVEL, level⟩, ?_, rfl⟩,
      ⟨⟨(GROUP_ADDRESS <<< 1) ||| (group <<< 1) ||| DATA_POWER_LEVEL, level⟩, ?_, rfl⟩⟩
  · simp [txFrameSymbols, txFrame]
  · rw [txAddressPowerLevel, if_neg (by omega)]; rfl
  · rw [txGroupPowerLevel, if_neg (by omega)]; rfl

/-- Witness for C5 at concrete inputs (address 2, group 3, level 130). -/
theorem c5_repeat_discipline_witness :
    (2 ≤ MAX_ADDR ∧ 3 ≤ MAX_GROUP) ∧
    (∃ f, txAddressPowerLevel 2 130 = [f] ∧ f.data = 130) :=
  ⟨⟨by decide, by decide⟩, (c5_repeat_discipline 2 3 130 (by decide) (by decide)).2.2.2.2.2.1⟩

/-! ## The scheduler snapshot (`LightsState` in `lights.h`) -/

/-- By-value snapshot of the light model handed to the bus scheduler
(`Lights::get_state`). -/
structure LightsState where
  addresses : Fin 64 → Bool
  groupAddresses : Fin 16 → Fin 64 → Bool
  levels : Fin 64 → ℕ
  groupLevels : Fin 16 → ℕ
  groupLevelAddresses : Fin 64 → Bool
  broadcastLevel : ℕ
  groupSync : Fin 16 → Bool
  forceRefresh : Fin 64 → Bool
  broadcastPowerOnLevel : Bool
  broadcastSystemFailureLevel : Bool

/-! ## Group-level phase of `Dali::run_tasks` (lines 122-147)

One iteration of the group loop body for a given group, parameterised on the
outcome `txOk` of the `tx_group_power_level` transmit.  Returns the updated
`tx_levels_`, the updated `tx_group_levels_`, whether `changed` was set, and
the frames put on the bus.  Note that on a successful transmit the source
iterates `address` over the whole bitset size (64) and assigns
`tx_levels_[address]` unconditionally, without testing
`state.group_addresses[group][address]`. -/
def processGroup (txOk : Bool) (state : LightsState) (group : Fin 16)
    (txLevels : Fin 64 → ℕ) (txGroupLevels : Fin 16 → ℕ) :
    (Fin 64 → ℕ) × (Fin 16 → ℕ) × Bool × List Frame :=
  if state.groupLevels group ≠ txGroupLevels group then
    if state.groupLevels group = LEVEL_NO_CHANGE then
      (txLevels, Function.update txGroupLevels group LEVEL_NO_CHANGE, false, [])
    else if txOk then
      (fun _ => state.groupLevels group,
       Function.update txGroupLevels group (state.groupLevels group), true,
       txGroupPowerLevel group.val (state.groupLevels group))
    else (txLevels, txGroupLevels, false, [])
  else (txLevels, txGroupLevels, false, [])

/-- Concrete scheduler snapshot for the C1 evaluation: group 0 has the single
member address 0 and desired level 100; everything else idle. -/
def c1State : LightsState where
  addresses := fun a => a = 0 ∨ a = 1
  groupAddresses := fun g a => g = 0 ∧ a = 0
  levels := fun a => if a = 0 then 100 else if a = 1 then 50 else LEVEL_NO_CHANGE
  groupLevels := fun g => if g = 0 then 100 else LEVEL_NO_CHANGE
  groupLevelAddresses := fun _ => false
  broadcastLevel := LEVEL_NO_CHANGE
  groupSync := fun _ => false
  forceRefresh := fun _ => false
  broadcastPowerOnLevel := false
  broadcastSystemFailureLevel := false

/-- C1: after a successful group power-level transmit the scheduler was
claimed to update `tx_level[a]` only for member addresses `a` of the group and
leave non-members unchanged; evaluating the embedded loop body at a state
where group 0 = {address 0} at level 100 and the cached level of the
non-member address 1 is 50 shows the group frame is emitted (desired 100
differs from cached 255) yet the non-member cache entry is overwritten to 100:
the source loop assigns `tx_levels_[address]` for every address of the bitset,
with no membership test (unlike the group-sync loop directly below it). -/
theorem c1_nonmember_cache_overwritten :
    (c1State.groupAddresses 0 1 = false
      ∧ c1State.groupLevels 0 = 100 ∧ (100 : ℕ) ≠ LEVEL_NO_CHANGE)
    ∧ (processGroup true c1State 0 (fun _ => 50) (fun _ => LEVEL_NO_CHANGE)).2.2.2
        = txGroupPowerLevel 0 100
    ∧ (processGroup true c1State 0 (fun _ => 50) (fun _ => LEVEL_NO_CHANGE)).1 1 = 100
    ∧ (100 : ℕ) ≠ 50 := by
  refine ⟨⟨by decide, by decide, by decide⟩, ?_, ?_, by decide⟩ <;>
    simp [processGroup, c1State, LEVEL_NO_CHANGE]

/-! ## Group-sync phase of `Dali::run_tasks` (lines 186-206)

Each transmit is one `tx_frame` call whose success is read off an oracle
`okf` indexed by the number of `tx_frame` calls made so far. -/

/-- One `tx_frame` call: the frames it would put on the bus and whether the
blocking write succeeded. -/
structure TxCall where
  frames : List Frame
  ok : Bool
deriving DecidableEq, Repr

/-- The add-to-group loop of the group-sync phase: walk the addresses in
order, transmit `tx_address_group_add` for each member, and bail out at the
first failed transmit (`goto group_sync_failed`).  Returns the calls made, the
next oracle index and whether the loop completed. -/
def syncGroupAdds (okf : ℕ → Bool) (g : ℕ) (members : Fin 64 → Bool) :
    ℕ → List (Fin 64) → List TxCall × ℕ × Bool
  | n, [] => ([], n, true)
  | n, a :: rest =>
    if members a then
      if okf n then
        let r := syncGroupAdds okf g members (n + 1) rest
        (⟨txAddressGroupAdd a.val g, true⟩ :: r.1, r.2.1, r.2.2)
      else ([⟨txAddressGroupAdd a.val g, false⟩], n + 1, false)
    else syncGroupAdds okf g members n rest

/-- The group-sync phase body for one pending group: `tx_group_empty` first
(skip the group on failure), then one `tx_address_group_add` per member; the
final `Bool` says whether `Lights::completed_group_sync` is invoked. -/
def syncGroup (okf : ℕ → Bool) (n : ℕ) (g : ℕ) (members : Fin 64 → Bool) :
    List TxCall × ℕ × Bool :=
  if okf n then
    let r := syncGroupAdds okf g (members) (n + 1) (List.finRange 64)
    (⟨txGroupEmpty g, true⟩ :: r.1, r.2.1, r.2.2)
  else ([⟨txGroupEmpty g, false⟩], n + 1, false)

/-- In the add loop, completion coincides with every attempted call having
succeeded. -/
theorem syncGroupAdds_done_eq_all (okf : ℕ → Bool) (g : ℕ) (members : Fin 64 → Bool) :
    ∀ (l : List (Fin 64)) (n : ℕ),
      (syncGroupAdds okf g members n l).2.2
        = (syncGroupAdds okf g members n l).1.all (·.ok) := by
  intro l
  induction l with
  | nil => intro n; rfl
  | cons a rest ih =>
    intro n
    by_cases hm : members a
    · by_cases hok : okf n
      · simp [syncGroupAdds, hm, hok, ih (n + 1)]
      · simp [syncGroupAdds, hm, hok]
    · simp [syncGroupAdds, hm, ih n]

/-- When the add loop completes, it made exactly one successful repeated
add-to-group call per member address, in address order. -/
theorem syncGroupAdds_done_shape (okf : ℕ → Bool) (g : ℕ) (members : Fin 64 → Bool) :
    ∀ (l : List (Fin 64)) (n : ℕ),
      (syncGroupAdds okf g members n l).2.2 = true →
      (syncGroupAdds okf g members n l).1
        = (l.filter (fun a => members a)).map
            (fun a => ⟨txAddressGroupAdd a.val g, true⟩) := by
  intro l
  induction l with
  | nil => intro n _; rfl
  | cons a rest ih =>
    intro n hdone
    by_cases hm : members a
    · by_cases hok : okf n
      · simp only [syncGroupAdds, hm, hok, if_true] at hdone ⊢
        simp only [List.filter_cons, hm, if_true, List.map_cons, List.cons.injEq, true_and]
        exact ih (n + 1) hdone
      · simp [syncGroupAdds, hm, hok] at hdone
    · simp only [syncGroupAdds, hm, Bool.false_eq_true, if_false, List.filter_cons] at hdone ⊢
      simpa [hm] using ih n hdone

/-- C4 (amended): for every pending group the scheduler first empties the
group with the remove-from-group command addressed to the group itself (a
repeated frame, not a broadcast), then sends one repeated add-to-group command
per member address in address order, and invokes `completed_group_sync` to
clear the pending flag exactly when every one of those transmits succeeded. -/
theorem c4_group_sync (okf : ℕ → Bool) (n : ℕ) (g : ℕ) (members : Fin 64 → Bool) :
    ((syncGroup okf n g members).1.head? =
        some ⟨txGroupEmpty g, okf n⟩
      ∧ txGroupEmpty g = [⟨(GROUP_ADDRESS <<< 1) ||| (g <<< 1) ||| DATA_COMMAND,
            COMMAND_REMOVE_FROM_GROUP + g⟩,
          ⟨(GROUP_ADDRESS <<< 1) ||| (g <<< 1) ||| DATA_COMMAND,
            COMMAND_REMOVE_FROM_GROUP + g⟩])
    ∧ ((syncGroup okf n g members).2.2
        = (syncGroup okf n g members).1.all (·.ok))
    ∧ ((syncGroup okf n g members).2.2 = true →
        (syncGroup okf n g members).1
          = ⟨txGroupEmpty g, true⟩ ::
            ((List.finRange 64).filter (fun a => members a)).map
              (fun a => ⟨txAddressGroupAdd a.val g, true⟩)) := by
  by_cases hok : okf n
  · refine ⟨⟨by simp [syncGroup, hok], rfl⟩, ?_, ?_⟩
    · simp only [syncGroup, hok, if_pos rfl, List.all_cons]
      exact (syncGroupAdds_done_eq_all okf g members (List.finRange 64) (n + 1)).symm ▸ rfl
    · intro hdone
      simp only [syncGroup, hok, if_pos rfl] at hdone ⊢
      exact congrArg _ (syncGroupAdds_done_shape okf g members (List.finRange 64) (n + 1) hdone)
  · refine ⟨⟨by simp [syncGroup, hok], rfl⟩, by simp [syncGroup, hok], ?_⟩
    intro hdone
    simp [syncGroup, hok] at hdone

/-- Witness for C4 at a concrete input: group 2 with members {4, 9}, all
transmits succeeding; the phase makes the remove call then the two add calls
and reports completion. -/
theorem c4_group_sync_witness :
    (syncGroup (fun _ => true) 0 2 (fun a => a = 4 ∨ a = 9)).2.2 = true →
    (syncGroup (fun _ => true) 0 2 (fun a => a = 4 ∨ a = 9)).1
      = ⟨txGroupEmpty 2, true⟩ ::
        ((List.finRange 64).filter (fun a => (a = 4 ∨ a = 9 : Bool))).map
          (fun a => ⟨txAddressGroupAdd a.val 2, true⟩) :=
  (c4_group_sync (fun _ => true) 0 2 (fun a => a = 4 ∨ a = 9)).2.2

/-- C4 counterexample: the claim states the group is emptied with a
*broadcast* remove-from-group frame; at group 0 with member {0} and all
transmits succeeding, the broadcast frame `(0xFF, 0x70)` appears nowhere in
the transmitted frames — the remove command is sent group-addressed
(address byte `0x81`). -/
theorem c4_remove_not_broadcast :
    ((syncGroup (fun _ => true) 0 0 (fun a => a = 0)).1.flatMap TxCall.frames
        = [⟨0x81, 0x70⟩, ⟨0x81, 0x70⟩, ⟨0x01, 0x60⟩, ⟨0x01, 0x60⟩])
    ∧ Frame.mk 0xFF 0x70 ∉
        ((syncGroup (fun _ => true) 0 0 (fun a => a = 0)).1.flatMap TxCall.frames)
    ∧ (BROADCAST_ADDRESS <<< 1) ||| DATA_COMMAND = 0xFF := by
  refine ⟨?_, ?_, by decide⟩ <;> decide

/-! ## Configuration save path (`Config::save_config`, `ConfigFile::write_config`)

The bookkeeping kept by `Config` around saves, generic in the configuration
data (only equality of snapshots matters to the control flow).  The outcome of
`ConfigFile::write_config` is threaded in as `writeOk`; the source calls it
and discards the returned value ("If this fails, don't retry - wait until the
config changes again"). -/

/-- Save bookkeeping held by `Config`: `last_saved_`, `saved_`, `dirty_`. -/
structure SaveState (α : Type) where
  lastSaved : α
  saved : Bool
  dirty : Bool
deriving DecidableEq, Repr

/-- `ConfigFile::write_config(const ConfigData&)`: succeeds only when writing
the primary file, re-parsing it and writing the backup file all succeed. -/
def writeConfigOk (writePrimaryOk reparseOk writeBackupOk : Bool) : Bool :=
  writePrimaryOk && reparseOk && writeBackupOk

/-- `Config::save_config` as a transition on the save bookkeeping: the second
component records whether `file_.write_config` was invoked this tick.
`writeOk` is the (discarded) result of that call. -/
def saveConfig {α : Type} [DecidableEq α] (current : α) (st : SaveState α)
    (writeOk : Bool) : SaveState α × Bool :=
  if st.saved ∧ ¬st.dirty then (st, false)
  else if current = st.lastSaved then ({ st with dirty := false }, false)
  else
    let _ := writeOk
    ({ lastSaved := current, saved := true, dirty := false }, true)

/-- C3 counterexample: with a dirty configuration (`current = 1`,
`last_saved = 0`) and the flash write failing, `save_config` nevertheless
records `last_saved = current` and `saved`, and the very next tick with the
same data performs no retry — contradicting the claim that a failed write
leaves `last_saved` untouched so the next tick retries. -/
theorem c3_failed_write_updates_last_saved :
    (saveConfig (1 : ℕ) ⟨0, false, true⟩ false).1 = ⟨1, true, false⟩
    ∧ (saveConfig (1 : ℕ) ⟨0, false, true⟩ false).2 = true
    ∧ (saveConfig (1 : ℕ)
        (saveConfig (1 : ℕ) ⟨0, false, true⟩ false).1 false).2 = false := by
  refine ⟨?_, ?_, ?_⟩ <;> decide

/-- C3 (amended): whether or not the flash write succeeds, a save tick whose
snapshot differs from `last_saved` performs the write exactly once and then
unconditionally records the snapshot as saved, so a failed write is not
retried until the configuration changes again; `ConfigFile::write_config`
itself reports success only when writing the primary file, re-parsing it and
writing the backup file all succeed. -/
theorem c3_save_bookkeeping {α : Type} [DecidableEq α]
    (current : α) (st : SaveState α) (writeOk : Bool)
    (hrun : ¬(st.saved ∧ ¬st.dirty)) (hdiff : current ≠ st.lastSaved) :
    (saveConfig current st writeOk).1 = ⟨current, true, false⟩
    ∧ (saveConfig current st writeOk).2 = true
    ∧ (∀ writeOk2, (saveConfig current (saveConfig current st writeOk).1 writeOk2).2 = false)
    ∧ (∀ wp rp wb, writeConfigOk wp rp wb = true ↔ wp = true ∧ rp = true ∧ wb = true) := by
  have hcond : ¬(st.saved = true ∧ st.dirty = false) := by
    intro h
    exact hrun ⟨h.1, by simp [h.2]⟩
  refine ⟨?_, ?_, ?_, ?_⟩
  · simp [saveConfig, hcond, hdiff]
  · simp [saveConfig, hcond, hdiff]
  · intro writeOk2
    simp [saveConfig, hcond, hdiff]
  · intro wp rp wb
    simp [writeConfigOk, Bool.and_eq_true, and_assoc]

/-- Witness for C3 (amended) at the concrete failing-write input. -/
theorem c3_save_bookkeeping_witness :
    (¬((false : Bool) = true ∧ ¬((true : Bool) = true)) ∧ (1 : ℕ) ≠ 0)
    ∧ (saveConfig (1 : ℕ) ⟨0, false, true⟩ false).1 = ⟨1, true, false⟩ :=
  ⟨⟨by decide, by decide⟩,
    (c3_save_bookkeeping (1 : ℕ) ⟨0, false, true⟩ false (by decide) (by decide)).1⟩

/-! ## String utilities (`util.cpp`) and the light-spec parser
(`Config::parse_light_ids`) -/

/-- Whitespace accepted by `strtoul` (the C locale `isspace` set). -/
def isCSpace (c : Char) : Bool :=
  c = ' ' ∨ c = '\t' ∨ c = '\n' ∨ c = '\x0b' ∨ c = '\x0c' ∨ c = '\r'

/-- Value of a decimal digit run. -/
def digitsVal (cs : List Char) : ℕ :=
  cs.foldl (fun a c => a * 10 + (c.toNat - 48)) 0

/-- `strtoul`/`strtoull` in base 10 followed by the `!endptr || endptr[0] ||
errno` check of `util.cpp`, for an unsigned type with maximum `umax`:
optional whitespace, optional sign, a non-empty digit run reaching the end of
the string; overflow sets `ERANGE`; a `-` sign wraps modulo `umax + 1`.  An
empty string performs no conversion but leaves `endptr` on the terminating
NUL, so it passes the check with value 0. -/
def strtoulBase10 (umax : ℕ) (cs : List Char) : Option ℕ :=
  if cs = [] then some 0
  else
    let cs1 := cs.dropWhile isCSpace
    let signed : Bool × List Char :=
      match cs1 with
      | '-' :: rest => (true, rest)
      | '+' :: rest => (false, rest)
      | _ => (false, cs1)
    let digits := signed.2.takeWhile Char.isDigit
    let rest := signed.2.dropWhile Char.isDigit
    if digits = [] then none
    else if rest ≠ [] then none
    else
      let n := digitsVal digits
      if n > umax then none
      else some (if signed.1 then (umax + 1 - n) % (umax + 1) else n)

/-- `ULONG_MAX` on the 32-bit target. -/
def ULONG_MAX : ℕ := 2 ^ 32 - 1

/-- `ULLONG_MAX`. -/
def ULLONG_MAX : ℕ := 2 ^ 64 - 1

/-- `ulong_from_string`: reject the empty string, skip one leading `+`, then
`strtoul`. -/
def ulongFromString (s : String) : Option ℕ :=
  match s.data with
  | [] => none
  | '+' :: rest => strtoulBase10 ULONG_MAX rest
  | l => strtoulBase10 ULONG_MAX l

/-- `ulonglong_from_string`. -/
def ulonglongFromString (s : String) : Option ℕ :=
  match s.data with
  | [] => none
  | '+' :: rest => strtoulBase10 ULLONG_MAX rest
  | l => strtoulBase10 ULLONG_MAX l

/-- Split a character list at every comma (plain split, keeping empty
pieces). -/
def splitOnComma : List Char → List (List Char)
  | [] => [[]]
  | ',' :: rest => [] :: splitOnComma rest
  | c :: rest =>
    match splitOnComma rest with
    | [] => [[c]]
    | p :: ps => (c :: p) :: ps

/-- Items produced by the `std::getline(input, item, ',')` loop: empty input
yields no items, and a trailing delimiter does not yield a final empty
item. -/
def getlineItems (s : String) : List String :=
  match s.data with
  | [] => []
  | l =>
    let parts := (splitOnComma l).map String.mk
    if l.getLast? = some ',' then parts.dropLast else parts

/-! ### Configuration data consulted by the parser -/

/-- One named group: its id and membership bitset (`ConfigGroupData`). -/
structure GroupData where
  id : ℕ
  addrs : Fin 64 → Bool

/-- The slice of `ConfigData` the embedded operations read and write. -/
structure ConfigState where
  lights : Fin 64 → Bool
  groupsByName : List (String × GroupData)
  groupsById : Fin 16 → Fin 64 → Bool
  presets : List (String × (Fin 64 → ℕ))
  ordered : List String

/-- `groups_by_name.find(item)`, returning the membership bitset. -/
def lookupGroupAddrs (cfg : ConfigState) (name : String) : Option (Fin 64 → Bool) :=
  (cfg.groupsByName.find? (fun p => p.1 = name)).map (fun p => p.2.addrs)

/-- The set of raw addresses in a 64-bit membership bitset. -/
def bitsToFinset (m : Fin 64 → Bool) : Finset ℕ :=
  (Finset.univ.filter (fun a : Fin 64 => m a)).image Fin.val

/-- Resolve a numeric item or a `N-M` range: no dash means a single number;
a dash splits the item at its first occurrence and both halves must parse. -/
def itemRange (item : String) : Option (ℕ × ℕ) :=
  match item.data.findIdx? (fun c => c = '-') with
  | none => (ulongFromString item).map (fun b => (b, b))
  | some i =>
    match ulongFromString (String.mk (item.data.take i)),
        ulongFromString (String.mk (item.data.drop (i + 1))) with
    | some b, some e => some (b, e)
    | _, _ => none

/-- One iteration of the `parse_light_ids` item loop, updating the light set
and the idle-only flag.  Mirrors the source order: `all` (set every bit),
`idle` (flag only), a known group name (union its members), otherwise a
number or range with the `begin > end` and bounds checks, anything else
ignored. -/
def itemStep (cfg : ConfigState) (acc : Finset ℕ × Bool) (item : String) :
    Finset ℕ × Bool :=
  if item = "all" then (Finset.range 64, acc.2)
  else if item = "idle" then (acc.1, true)
  else
    match lookupGroupAddrs cfg item with
    | some addrs => (acc.1 ∪ bitsToFinset addrs, acc.2)
    | none =>
      match itemRange item with
      | none => acc
      | some (b, e) =>
        if b > e then acc
        else if numAddresses ≤ b then acc
        else if numAddresses ≤ e then acc
        else (acc.1 ∪ Finset.Icc b e, acc.2)

/-- The item loop over a list of items. -/
def parseItems (cfg : ConfigState) (items : List String) : Finset ℕ × Bool :=
  items.foldl (itemStep cfg) (∅, false)

/-- `Config::parse_light_ids`: split the input at commas and run the item
loop; returns the selected address set and the idle-only flag. -/
def parseLightIds (cfg : ConfigState) (lightIds : String) : Finset ℕ × Bool :=
  parseItems cfg (getlineItems lightIds)

/-- An item that fails to parse: not `all`/`idle`, not a known group, and
either numerically malformed or an inverted / out-of-range range. -/
def itemFails (cfg : ConfigState) (item : String) : Prop :=
  item ≠ "all" ∧ item ≠ "idle" ∧ lookupGroupAddrs cfg item = none ∧
    (itemRange item = none ∨
      ∃ b e, itemRange item = some (b, e) ∧ (b > e ∨ numAddresses ≤ b ∨ numAddresses ≤ e))

/-- A failing item leaves the accumulator untouched. -/
theorem itemStep_of_fails (cfg : ConfigState) (item : String)
    (h : itemFails cfg item) (acc : Finset ℕ × Bool) :
    itemStep cfg acc item = acc := by
  obtain ⟨h1, h2, h3, h4⟩ := h
  rcases h4 with h4 | ⟨b, e, hbe, hcase⟩
  · simp [itemStep, h1, h2, h3, h4]
  · have heq : itemStep cfg acc item
        = if b > e then acc
          else if numAddresses ≤ b then acc
          else if numAddresses ≤ e then acc
          else (acc.1 ∪ Finset.Icc b e, acc.2) := by
      simp [itemStep, h1, h2, h3, hbe]
    rw [heq]
    split
    · rfl
    · split
      · rfl
      · split
        · rfl
        · simp only [numAddresses] at *
          omega

/-- Each step keeps the address set inside `[0, 63]`. -/
theorem itemStep_subset (cfg : ConfigState) (acc : Finset ℕ × Bool) (item : String)
    (h : ∀ a ∈ acc.1, a < 64) : ∀ a ∈ (itemStep cfg acc item).1, a < 64 := by
  intro a ha
  by_cases hall : item = "all"
  · simp [itemStep, hall] at ha
    simpa using ha
  · by_cases hidle : item = "idle"
    · simp [itemStep, hall, hidle] at ha
      exact h a ha
    · rcases hg : lookupGroupAddrs cfg item with _ | addrs
      · rcases hr : itemRange item with _ | ⟨b, e⟩
        · simp [itemStep, hall, hidle, hg, hr] at ha
          exact h a ha
        · have heq : itemStep cfg acc item
              = if b > e then acc
                else if numAddresses ≤ b then acc
                else if numAddresses ≤ e then acc
                else (acc.1 ∪ Finset.Icc b e, acc.2) := by
            simp [itemStep, hall, hidle, hg, hr]
          rw [heq] at ha
          split at ha
          · exact h a ha
          · split at ha
            · exact h a ha
            · split at ha
              · exact h a ha
              · rcases Finset.mem_union.1 ha with ha | ha
                · exact h a ha
                · have := (Finset.mem_Icc.1 ha).2
                  simp only [numAddresses] at *
                  omega
      · simp only [itemStep, if_neg hall, if_neg hidle, hg] at ha
        rcases Finset.mem_union.1 ha with ha | ha
        · exact h a ha
        · obtain ⟨i, _, rfl⟩ : ∃ i : Fin 64, addrs i = true ∧ i.val = a := by
            simpa [bitsToFinset] using ha
          exact i.isLt

/-- Folding the item loop keeps the address set inside `[0, 63]`. -/
theorem parseItems_subset (cfg : ConfigState) (items : List String) :
    ∀ acc, (∀ a ∈ acc.1, a < 64) → ∀ a ∈ (items.foldl (itemStep cfg) acc).1, a < 64 := by
  induction items with
  | nil => intro acc h; exact h
  | cons item rest ih =>
    intro acc h
    exact ih (itemStep cfg acc item) (itemStep_subset cfg acc item h)

/-- C9: for every input string the light-spec parser returns only addresses
in `[0, 63]`; the item `all` yields the full 64-address set; the item `idle`
sets only the idle-only flag and contributes no addresses; and any
comma-separated item that fails to parse (unknown name, malformed number,
inverted or out-of-range range) is ignored while all the other items still
take effect. -/
theorem c9_parse_light_ids (cfg : ConfigState) (s : String)
    (pre post : List String) (bad : String) (hbad : itemFails cfg bad) :
    (∀ a ∈ (parseLightIds cfg s).1, a < 64)
    ∧ (parseLightIds cfg "all" = (Finset.range 64, false)
        ∧ ∀ acc, itemStep cfg acc "all" = (Finset.range 64, acc.2))
    ∧ (parseLightIds cfg "idle" = (∅, true)
        ∧ ∀ acc, itemStep cfg acc "idle" = (acc.1, true))
    ∧ (∀ acc, (pre ++ bad :: post).foldl (itemStep cfg) acc
        = (pre ++ post).foldl (itemStep cfg) acc) := by
  refine ⟨?_, ⟨rfl, fun acc => rfl⟩, ⟨rfl, fun acc => rfl⟩, ?_⟩
  · exact parseItems_subset cfg (getlineItems s) (∅, false) (by simp)
  · intro acc
    rw [List.foldl_append, List.foldl_append, List.foldl_cons,
      itemStep_of_fails cfg bad hbad]

/-- Witness for C9 at concrete inputs: a config with one group `g` = {2, 9},
the spec "g,1,5-7,zz,70,6-4,idle", and the failing item "zz" dropped from the
item list without affecting the rest. -/
theorem c9_parse_light_ids_witness :
    (parseLightIds ⟨fun _ => true,
        [("g", ⟨0, fun a => a = 2 ∨ a = 9⟩)], fun _ _ => false, [], []⟩
        "g,1,5-7,zz,70,6-4,idle").1 = ({1, 2, 5, 6, 7, 9} : Finset ℕ)
    ∧ (itemFails ⟨fun _ => true,
        [("g", ⟨0, fun a => a = 2 ∨ a = 9⟩)], fun _ _ => false, [], []⟩ "zz"
      ∧ ∀ acc, (["g", "1"] ++ "zz" :: ["70"]).foldl
          (itemStep ⟨fun _ => true,
            [("g", ⟨0, fun a => a = 2 ∨ a = 9⟩)], fun _ _ => false, [], []⟩) acc
        = (["g", "1"] ++ ["70"]).foldl
          (itemStep ⟨fun _ => true,
            [("g", ⟨0, fun a => a = 2 ∨ a = 9⟩)], fun _ _ => false, [], []⟩) acc) := by
  constructor
  · decide
  · have hfails : itemFails ⟨fun _ => true,
        [("g", ⟨0, fun a => a = 2 ∨ a = 9⟩)], fun _ _ => false, [], []⟩ "zz" := by
      refine ⟨by decide, by decide, by decide, Or.inl (by decide)⟩
    exact ⟨hfails,
      (c9_parse_light_ids ⟨fun _ => true,
        [("g", ⟨0, fun a => a = 2 ∨ a = 9⟩)], fun _ _ => false, [], []⟩ ""
        ["g", "1"] ["70"] "zz" hfails).2.2.2⟩

/-! ## The light model (`Lights` in `lights.cpp`) -/

/-- `Lights::IDLE_US = 10 * ONE_S` (microseconds). -/
def IDLE_US : ℕ := 10 * 1000000

/-- Mutable runtime state of `Lights` relevant to the embedded operations. -/
structure LightsModel where
  levels : Fin 64 → ℕ
  groupLevels : Fin 16 → ℕ
  broadcastLevel : ℕ
  groupLevelAddresses : Fin 64 → Bool
  activePresets : Fin 64 → String
  dimTimes : Fin 64 → ℕ
  lastActivity : ℕ

/-- Human-readable reports pushed through `network_.report`, abstracted to
their kind. -/
inductive ReportEvent where
  | ignoredNotIdle (name : String)
  | selected (name : String) (idleOnly : Bool)
  | levelSet (level : ℤ)
deriving DecidableEq, Repr

/-- `Lights::is_idle`: at least 10 s since the last activity
(`esp_timer_get_time()` is monotonic from boot, so the `uint64_t` subtraction
never wraps). -/
def isIdle (now last : ℕ) : Bool := decide (IDLE_US ≤ now - last)

/-- `Lights::clear_dimmed_levels`: zero the dim timestamps of the addressed
lights. -/
def clearDimmedLevels (lights : Finset ℕ) (st : LightsModel) : LightsModel :=
  { st with dimTimes := fun i => if i.val ∈ lights then 0 else st.dimTimes i }

/-- `Lights::report_dimmed_levels` with `time_us = 0`: every addressed light
with a pending dim timestamp is reported and its timestamp zeroed
(`now - dim_time_us[i] >= 0` always holds). -/
def reportDimmedLevels (lights : Finset ℕ) (st : LightsModel) : LightsModel :=
  { st with dimTimes := fun i =>
      if i.val ∈ lights ∧ st.dimTimes i ≠ 0 then 0 else st.dimTimes i }

/-- The group loop of `Lights::clear_group_levels`: for every group id whose
group level is set and whose membership meets the addressed lights, reset the
group level and widen the set of lights to clear from the mask. -/
def clearGroupLevelsAux (cfg : ConfigState) (lights : Finset ℕ) :
    List (Fin 16) → (Fin 16 → ℕ) → Finset ℕ → ((Fin 16 → ℕ) × Finset ℕ)
  | [], gls, clear => (gls, clear)
  | g :: rest, gls, clear =>
    if gls g ≠ LEVEL_NO_CHANGE ∧ ¬(lights ∩ bitsToFinset (cfg.groupsById g) = ∅) then
      clearGroupLevelsAux cfg lights rest (Function.update gls g LEVEL_NO_CHANGE)
        (clear ∪ bitsToFinset (cfg.groupsById g))
    else clearGroupLevelsAux cfg lights rest gls clear

/-- `Lights::clear_group_levels`. -/
def clearGroupLevels (cfg : ConfigState) (lights : Finset ℕ) (st : LightsModel) :
    LightsModel :=
  let r := clearGroupLevelsAux cfg lights (List.finRange 16) st.groupLevels lights
  { st with
    groupLevels := r.1
    groupLevelAddresses := fun i => st.groupLevelAddresses i && decide (i.val ∉ r.2) }

/-- `Config::get_preset`: the built-in preset `off` is all zeros, otherwise
look the name up. -/
def getPreset (cfg : ConfigState) (name : String) : Option (Fin 64 → ℕ) :=
  if name = "off" then some (fun _ => 0)
  else (cfg.presets.find? (fun p => p.1 = name)).map (fun p => p.2)

/-- `Config::get_ordered_preset`: index modulo the ordered list length. -/
def getOrderedPreset (cfg : ConfigState) (idx : ℕ) : Option String :=
  if cfg.ordered = [] then none
  else some (cfg.ordered.getD (idx % cfg.ordered.length) "")

/-- Name resolution at the top of `Lights::select_preset`: empty names are
rejected and a numeric name is an index into the ordered preset list. -/
def resolvePresetName (cfg : ConfigState) (name : String) : Option String :=
  if name = "" then none
  else
    match ulonglongFromString name with
    | some v => getOrderedPreset cfg v
    | none => some name

/-- The mutation phase of `Lights::select_preset` after all guards have
passed: clear dim timestamps (with a report unless internal), clear touched
group levels, then write levels and active-preset labels for the present
addressed lights whose preset entry is not the sentinel, clearing the
active-preset label of every non-present address; refresh `last_activity_us`
unless the spec was idle-only. -/
def selectPresetApply (cfg : ConfigState) (st : LightsModel) (name : String)
    (lights : Finset ℕ) (idleOnly internal : Bool) (now : ℕ)
    (presetLevels : Fin 64 → ℕ) : LightsModel × List ReportEvent :=
  let st1 := if internal then clearDimmedLevels lights st else reportDimmedLevels lights st
  let st2 := clearGroupLevels cfg lights st1
  let hit : Fin 64 → Prop := fun i =>
    cfg.lights i = true ∧ presetLevels i ≠ LEVEL_NO_CHANGE ∧ i.val ∈ lights
  let changed := decide (∃ i : Fin 64, hit i)
  ({ st2 with
      levels := fun i => if hit i then presetLevels i else st2.levels i
      activePresets := fun i =>
        if cfg.lights i then (if presetLevels i ≠ LEVEL_NO_CHANGE ∧ i.val ∈ lights
          then name else st2.activePresets i)
        else ""
      lastActivity := if idleOnly then st2.lastActivity else now },
    if changed && !internal then [ReportEvent.selected name idleOnly] else [])

/-- `Lights::select_preset`. -/
def selectPreset (cfg : ConfigState) (st : LightsModel) (name0 lightIds : String)
    (internal : Bool) (now : ℕ) : LightsModel × List ReportEvent :=
  let parsed := parseLightIds cfg lightIds
  match resolvePresetName cfg name0 with
  | none => (st, [])
  | some name =>
    match getPreset cfg name with
    | none => (st, [])
    | some presetLevels =>
      if internal = false ∧ parsed.2 = true ∧ isIdle now st.lastActivity = false then
        (st, [ReportEvent.ignoredNotIdle name])
      else selectPresetApply cfg st name parsed.1 parsed.2 internal now presetLevels

/-- `Lights::set_level`. -/
def setLevel (cfg : ConfigState) (st : LightsModel) (lightIds : String)
    (level : ℤ) (now : ℕ) : LightsModel × List ReportEvent :=
  if level < 0 ∨ level > (MAX_LEVEL : ℤ) then (st, [])
  else
    let parsed := parseLightIds cfg lightIds
    if parsed.2 = true ∧ isIdle now st.lastActivity = false then (st, [])
    else
      let st1 := reportDimmedLevels parsed.1 st
      let st2 := clearGroupLevels cfg parsed.1 st1
      let hit : Fin 64 → Prop := fun i => cfg.lights i = true ∧ i.val ∈ parsed.1
      let changed := decide (∃ i : Fin 64, hit i)
      ({ st2 with
          levels := fun i => if hit i then level.toNat else st2.levels i
          activePresets := fun i => if hit i then "custom" else st2.activePresets i
          lastActivity := now },
        if changed then [ReportEvent.levelSet level] else [])

/-! ## Address configuration (`Config::set_addresses`) -/

/-- One hex digit as accepted by the `set_addresses` loop (decimal digits and
uppercase `A`-`F` only). -/
def hexDigit (c : Char) : Option ℕ :=
  if '0' ≤ c ∧ c ≤ '9' then some (c.toNat - 48)
  else if 'A' ≤ c ∧ c ≤ 'F' then some (c.toNat - 55)
  else none

/-- The pair-consuming loop of `Config::set_addresses`: two hex digits per
address, stopping at the first malformed digit, setting only in-range bits. -/
def setAddrLoop : List Char → (Fin 64 → Bool) → (Fin 64 → Bool)
  | c0 :: c1 :: rest, lights =>
    match hexDigit c0, hexDigit c1 with
    | some hi, some lo =>
      let a := hi * 16 + lo
      setAddrLoop rest
        (if h : a < 64 then Function.update lights ⟨a, h⟩ true else lights)
    | _, _ => lights
  | _, lights => lights

/-- `Config::set_addresses` for the built-in group `all`: replace the set of
present addresses with the parsed bitset (starting from all-clear). -/
def setAddresses (cfg : ConfigState) (s : String) : ConfigState :=
  { cfg with lights := setAddrLoop s.data (fun _ => false) }

/-! ## Operation sequences over the combined state (for the level/present
coupling claim) -/

/-- The operations named by the level/present coupling claim. -/
inductive Op where
  | setAddr (s : String)
  | setLvl (spec : String) (lvl : ℤ) (now : ℕ)
  | selPreset (name spec : String) (internal : Bool) (now : ℕ)

/-- Combined configuration and light-model state. -/
structure Sys where
  cfg : ConfigState
  lm : LightsModel

/-- Apply one operation: `T/addresses` goes to the config store, the other
two to the light model. -/
def applyOp (sys : Sys) : Op → Sys
  | .setAddr s => { sys with cfg := setAddresses sys.cfg s }
  | .setLvl spec lvl now => { sys with lm := (setLevel sys.cfg sys.lm spec lvl now).1 }
  | .selPreset name spec internal now =>
    { sys with lm := (selectPreset sys.cfg sys.lm name spec internal now).1 }

/-- Run a sequence of operations. -/
def runOps (sys : Sys) (ops : List Op) : Sys := ops.foldl applyOp sys

/-- The state at boot: no addresses configured, every level at the sentinel,
every active preset `unknown`. -/
def initialSys : Sys where
  cfg := ⟨fun _ => false, [], fun _ _ => false, [], []⟩
  lm := ⟨fun _ => LEVEL_NO_CHANGE, fun _ => LEVEL_NO_CHANGE, LEVEL_NO_CHANGE,
    fun _ => false, fun _ => "unknown", fun _ => 0, 0⟩

/-- C2 counterexample: from boot, make address 0 present, set its level to
100, then reconfigure the present set to empty.  The final state has
`level[0] = 100 ≠ 255` while address 0 is not present: removing an address
clears neither its level nor its active preset, so the claimed invariant
`level[a] != sentinel ⇒ present[a]` fails. -/
theorem c2_removed_address_keeps_level :
    (runOps initialSys [Op.setAddr "00", Op.setLvl "0" 100 0, Op.setAddr ""]).lm.levels 0 = 100
    ∧ (runOps initialSys [Op.setAddr "00", Op.setLvl "0" 100 0, Op.setAddr ""]).cfg.lights 0 = false
    ∧ (100 : ℕ) ≠ LEVEL_NO_CHANGE
    ∧ (runOps initialSys [Op.setAddr "00", Op.setLvl "0" 100 0, Op.setAddr ""]).lm.activePresets 0
        = "custom" := by
  refine ⟨?_, ?_, by decide, ?_⟩ <;> decide

/-- C2 (amended): an address-set operation never touches the light model, so
removing an address from the present set leaves its level and active preset
unchanged (in particular `level[a] != sentinel` does not imply that `a` is
present); a subsequent preset-select operation that passes its name-resolution
and idle guards clears `active_preset[a]` for every non-present address `a`
but still leaves `level[a]` unchanged. -/
theorem c2_unpresent_cleanup (cfg : ConfigState) (st : LightsModel)
    (name spec rname : String) (internal : Bool) (now : ℕ) (plv : Fin 64 → ℕ)
    (hres : resolvePresetName cfg name = some rname)
    (hp : getPreset cfg rname = some plv)
    (hgate : ¬(internal = false ∧ (parseLightIds cfg spec).2 = true
        ∧ isIdle now st.lastActivity = false)) :
    (∀ (sys : Sys) (s : String), (applyOp sys (Op.setAddr s)).lm = sys.lm)
    ∧ (∀ i : Fin 64, cfg.lights i = false →
        (selectPreset cfg st name spec internal now).1.activePresets i = ""
        ∧ (selectPreset cfg st name spec internal now).1.levels i = st.levels i) := by
  refine ⟨fun sys s => rfl, fun i hi => ?_⟩
  simp only [selectPreset, hres, hp, if_neg hgate, selectPresetApply]
  constructor
  · simp [hi]
  · simp only [hi, Bool.false_eq_true, false_and, if_false]
    by_cases hint : internal <;>
      simp [hint, clearGroupLevels, clearDimmedLevels, reportDimmedLevels]

/-- Concrete configuration for the C2 witness: only address 0 present, one
preset `p` setting every entry to 100. -/
def c2cfg : ConfigState :=
  ⟨fun i => i = 0, [], fun _ _ => false, [("p", fun _ => 100)], []⟩

/-- Concrete light model for the C2 witness. -/
def c2lm : LightsModel :=
  ⟨fun _ => LEVEL_NO_CHANGE, fun _ => LEVEL_NO_CHANGE, LEVEL_NO_CHANGE,
    fun _ => false, fun _ => "unknown", fun _ => 0, 0⟩

/-- Witness for C2 (amended) at a concrete input: an internal select of
preset `p` on `all` clears the active preset of the non-present address 1 and
leaves its level alone. -/
theorem c2_unpresent_cleanup_witness :
    (resolvePresetName c2cfg "p" = some "p"
      ∧ getPreset c2cfg "p" = some (fun _ => 100)
      ∧ ¬((true : Bool) = false ∧ (parseLightIds c2cfg "all").2 = true
          ∧ isIdle 0 c2lm.lastActivity = false)
      ∧ c2cfg.lights 1 = false)
    ∧ ((selectPreset c2cfg c2lm "p" "all" true 0).1.activePresets 1 = ""
        ∧ (selectPreset c2cfg c2lm "p" "all" true 0).1.levels 1 = c2lm.levels 1) :=
  ⟨⟨by decide, by decide, by decide, by decide⟩,
    (c2_unpresent_cleanup c2cfg c2lm "p" "all" "p" true 0 (fun _ => 100)
      (by decide) (by decide) (by decide)).2 1 (by decide)⟩

/-- C7: a non-internal preset selection whose light spec carries the `idle`
modifier, issued while the system is not idle (less than 10 s since the last
activity), changes no state and emits only the "ignored - not idle" report;
and whenever the light spec carries the `idle` modifier, the operation never
refreshes `last_activity_us` — in particular not when the idle-only preset
does apply. -/
theorem c7_idle_only_preset (cfg : ConfigState) (st : LightsModel)
    (name spec rname : String) (internal : Bool) (now : ℕ) (plv : Fin 64 → ℕ)
    (hres : resolvePresetName cfg name = some rname)
    (hp : getPreset cfg rname = some plv)
    (hflag : (parseLightIds cfg spec).2 = true) :
    (internal = false → isIdle now st.lastActivity = false →
      selectPreset cfg st name spec false now = (st, [ReportEvent.ignoredNotIdle rname]))
    ∧ (selectPreset cfg st name spec internal now).1.lastActivity = st.lastActivity := by
  constructor
  · intro hint hidle
    simp [selectPreset, hres, hp, hflag, hidle]
  · simp only [selectPreset, hres, hp]
    split
    · rfl
    · simp [selectPresetApply, hflag, clearGroupLevels, clearDimmedLevels,
        reportDimmedLevels]
      by_cases hint : internal <;> simp [hint]

/-- Concrete configuration for the C7 witness. -/
def c7cfg : ConfigState :=
  ⟨fun i => i = 0, [], fun _ _ => false, [("night", fun _ => 7)], []⟩

/-- Concrete light model for the C7 witness: last activity at t = 5 s. -/
def c7lm : LightsModel :=
  ⟨fun _ => LEVEL_NO_CHANGE, fun _ => LEVEL_NO_CHANGE, LEVEL_NO_CHANGE,
    fun _ => false, fun _ => "unknown", fun _ => 0, 5000000⟩

/-- Witness for C7 at a concrete input: selecting `night` on `all,idle` at
t = 8 s (3 s after the last activity) is ignored with the report, and the
idle-only selection never refreshes `last_activity_us`. -/
theorem c7_idle_only_preset_witness :
    (resolvePresetName c7cfg "night" = some "night"
      ∧ getPreset c7cfg "night" = some (fun _ => 7)
      ∧ (parseLightIds c7cfg "all,idle").2 = true
      ∧ isIdle 8000000 c7lm.lastActivity = false)
    ∧ selectPreset c7cfg c7lm "night" "all,idle" false 8000000
        = (c7lm, [ReportEvent.ignoredNotIdle "night"])
    ∧ (selectPreset c7cfg c7lm "night" "all,idle" false 8000000).1.lastActivity
        = c7lm.lastActivity :=
  ⟨⟨by decide, by decide, by decide, by decide⟩,
    (c7_idle_only_preset c7cfg c7lm "night" "all,idle" "night" false 8000000
      (fun _ => 7) (by decide) (by decide) (by decide)).1 rfl (by decide),
    (c7_idle_only_preset c7cfg c7lm "night" "all,idle" "night" false 8000000
      (fun _ => 7) (by decide) (by decide) (by decide)).2⟩

/-! ## Preset mutation (`Config::valid_preset_name`, `Config::set_preset`) -/

/-- `Config::MAX_PRESETS = 20`. -/
def MAX_PRESETS : ℕ := 20

/-- `Config::LEVEL_NO_CHANGE = -1` (the external no-change value). -/
def CONFIG_LEVEL_NO_CHANGE : ℤ := -1

/-- Character set accepted by the name validators: digits, lowercase letters,
`.`, `-`, `_`. -/
def validNameChars (cs : List Char) : Bool :=
  cs.all (fun c => ('0' ≤ c ∧ c ≤ '9') ∨ ('a' ≤ c ∧ c ≤ 'z') ∨ c = '.' ∨ c = '-' ∨ c = '_')

/-- `Config::valid_preset_name`: reject reserved names (`off` unless for use,
`custom`, `order`, `unknown`), the empty name and names longer than 50; the
first character must be a lowercase letter and every character must come from
the allowed set. -/
def validPresetName (name : String) (use : Bool) : Bool :=
  if (name = "off" ∧ use = false) ∨ name = "custom" ∨ name = "order"
      ∨ name = "unknown" ∨ name = "" ∨ name.length > 50 then false
  else
    match name.data with
    | [] => false
    | c :: _ => (('a' ≤ c ∧ c ≤ 'z') : Bool) && validNameChars name.data

/-- The per-address merge performed by `Config::set_preset(name, light_ids,
level)`: present and selected addresses get the new level, present unselected
addresses keep the previous entry, and every non-present address is forced to
the no-change sentinel. -/
def setPresetEntry (cfg : ConfigState) (selected : Finset ℕ) (lvl : ℕ)
    (base : Fin 64 → ℕ) : Fin 64 → ℕ :=
  fun i =>
    if cfg.lights i then (if i.val ∈ selected then lvl else base i)
    else LEVEL_NO_CHANGE

/-- `Config::set_preset(name, light_ids, level)`: convert the external level
(`-1` becomes the sentinel 255, other values must lie in `[0, 254]`), validate
the name, parse the light spec, then merge into the existing preset entry or a
fresh all-sentinel one (subject to the preset cap). -/
def setPreset (cfg : ConfigState) (name lightIds : String) (level : ℤ) :
    ConfigState :=
  let lvlConv : Option ℕ :=
    if level = CONFIG_LEVEL_NO_CHANGE then some LEVEL_NO_CHANGE
    else if 0 ≤ level ∧ level ≤ (MAX_LEVEL : ℤ) then some level.toNat
    else none
  match lvlConv with
  | none => cfg
  | some lvl =>
    if validPresetName name false = false then cfg
    else
      let parsed := parseLightIds cfg lightIds
      match cfg.presets.find? (fun p => p.1 = name) with
      | none =>
        if cfg.presets.length = MAX_PRESETS then cfg
        else
          { cfg with presets := cfg.presets ++
              [(name, setPresetEntry cfg parsed.1 lvl (fun _ => LEVEL_NO_CHANGE))] }
      | some p =>
        { cfg with presets := (cfg.presets.map
            (fun q => if q.1 = name then (q.1, setPresetEntry cfg parsed.1 lvl p.2) else q)) }

/-- Replacing the value of the found key rewrites the `find?` result. -/
theorem find_map_replace {β : Type} (name : String) (entry : β) :
    ∀ (l : List (String × β)) (p : String × β),
      l.find? (fun q => q.1 = name) = some p →
      (l.map (fun q => if q.1 = name then (q.1, entry) else q)).find?
          (fun q => q.1 = name) = some (name, entry) := by
  intro l
  induction l with
  | nil => intro p hp; simp at hp
  | cons q rest ih =>
    intro p hp
    by_cases hq : q.1 = name
    · simp [List.find?_cons, hq]
    · rw [List.find?_cons_of_neg _ (by simp [hq])] at hp
      simpa [List.find?_cons_of_neg, hq] using ih p hp

/-- C10: every `Config::set_preset(name, light_ids, level)` call with a valid
preset name and a level in `[0, 254]` or the no-change value overwrites the
stored entry of an existing preset so that every address that is not
currently present is forced to the no-change sentinel — including addresses
outside the given light spec — while entries of present addresses outside the
light spec are left unchanged (and present addresses inside the spec receive
the converted level). -/
theorem c10_set_preset_unpresent_sentinel (cfg : ConfigState)
    (name lightIds : String) (level : ℤ) (p : String × (Fin 64 → ℕ))
    (hvalid : validPresetName name false = true)
    (hlevel : level = CONFIG_LEVEL_NO_CHANGE ∨ (0 ≤ level ∧ level ≤ (MAX_LEVEL : ℤ)))
    (hfound : cfg.presets.find? (fun q => q.1 = name) = some p) :
    ∃ e : Fin 64 → ℕ,
      (setPreset cfg name lightIds level).presets.find? (fun q => q.1 = name)
          = some (name, e)
      ∧ (∀ i : Fin 64, cfg.lights i = false → e i = LEVEL_NO_CHANGE)
      ∧ (∀ i : Fin 64, cfg.lights i = true →
          i.val ∉ (parseLightIds cfg lightIds).1 → e i = p.2 i)
      ∧ (∀ i : Fin 64, cfg.lights i = true → i.val ∈ (parseLightIds cfg lightIds).1 →
          e i = if level = CONFIG_LEVEL_NO_CHANGE then LEVEL_NO_CHANGE else level.toNat) := by
  have hconv : (if level = CONFIG_LEVEL_NO_CHANGE then some LEVEL_NO_CHANGE
      else if 0 ≤ level ∧ level ≤ (MAX_LEVEL : ℤ) then some level.toNat else none)
      = some (if level = CONFIG_LEVEL_NO_CHANGE then LEVEL_NO_CHANGE else level.toNat) := by
    rcases hlevel with h | h
    · simp [h]
    · by_cases hnc : level = CONFIG_LEVEL_NO_CHANGE
      · simp [hnc]
      · simp [hnc, h]
  refine ⟨setPresetEntry cfg (parseLightIds cfg lightIds).1
      (if level = CONFIG_LEVEL_NO_CHANGE then LEVEL_NO_CHANGE else level.toNat) p.2,
    ?_, ?_, ?_, ?_⟩
  · show (setPreset cfg name lightIds level).presets.find? (fun q => q.1 = name) = _
    unfold setPreset
    rw [hconv]
    simp only [hvalid, Bool.true_eq_false, if_false, hfound]
    exact find_map_replace name _ cfg.presets p hfound
  · intro i hi
    simp [setPresetEntry, hi]
  · intro i hi hni
    simp [setPresetEntry, hi, hni]
  · intro i hi hni
    simp [setPresetEntry, hi, hni]

/-- Concrete configuration for the C10 witness: present addresses {0, 2},
preset `p` initially 10 everywhere. -/
def c10cfg : ConfigState :=
  ⟨fun i => i = 0 ∨ i = 2, [], fun _ _ => false, [("p", fun _ => 10)], []⟩

/-- Witness for C10 at a concrete input: `set_preset("p", "0", 200)` forces
the non-present address 1 of `p` to the sentinel, keeps the present
unselected address 2 at 10, and sets the present selected address 0 to
200. -/
theorem c10_set_preset_unpresent_sentinel_witness :
    (validPresetName "p" false = true
      ∧ ((200 : ℤ) = CONFIG_LEVEL_NO_CHANGE ∨ ((0 : ℤ) ≤ 200 ∧ (200 : ℤ) ≤ (MAX_LEVEL : ℤ)))
      ∧ c10cfg.presets.find? (fun q => q.1 = "p") = some ("p", fun _ => 10))
    ∧ ∃ e : Fin 64 → ℕ,
      (setPreset c10cfg "p" "0" 200).presets.find? (fun q => q.1 = "p") = some ("p", e)
      ∧ (∀ i : Fin 64, c10cfg.lights i = false → e i = LEVEL_NO_CHANGE)
      ∧ (∀ i : Fin 64, c10cfg.lights i = true →
          i.val ∉ (parseLightIds c10cfg "0").1 → e i = (fun _ : Fin 64 => (10 : ℕ)) i)
      ∧ (∀ i : Fin 64, c10cfg.lights i = true → i.val ∈ (parseLightIds c10cfg "0").1 →
          e i = if (200 : ℤ) = CONFIG_LEVEL_NO_CHANGE then LEVEL_NO_CHANGE
            else (200 : ℤ).toNat) :=
  ⟨⟨by decide, Or.inr ⟨by decide, by decide⟩, by decide⟩,
    c10_set_preset_unpresent_sentinel c10cfg "p" "0" 200 ("p", fun _ => 10)
      (by decide) (Or.inr ⟨by decide, by decide⟩) (by decide)⟩

/-! ## Dimmers (`DimmerConfig` in `config.h`, `Lights::dim_adjust`) -/

/-- `Dali::GROUP_NONE`: the sentinel "no group" id stored in
`address_group`.  The header revision under `src/` predates it; any value
outside `[0, 15]` behaves identically (`get_group_id` results are only used
after an `id < 16` bounds check). -/
def GROUP_NONE : ℕ := 255

/-- `DimmerMode`. -/
inductive DimmerMode where
  | individual
  | group
deriving DecidableEq, Repr

/-- `DimmerConfig` (`config.h`). -/
structure DimmerConfig where
  mode : DimmerMode
  addresses : Fin 64 → Bool
  groups : Fin 16 → Bool
  addressGroup : Fin 64 → ℕ
  groupAddresses : Fin 16 → Fin 64 → Bool
  all : Bool

/-- Sum and count of the levels selected by `p` (the accumulation pattern of
the `dim_adjust` mean loops). -/
def levelStats (p : Fin 64 → Bool) (s : LightsModel) : ℕ × ℕ :=
  (List.finRange 64).foldl
    (fun acc a => if p a then (acc.1 + s.levels a, acc.2 + 1) else acc) (0, 0)

/-- Sum and count over the addresses assigned to group `g` whose level is not
the sentinel (`dim_adjust`, group mode). -/
def groupStats (dc : DimmerConfig) (s : LightsModel) (g : Fin 16) : ℕ × ℕ :=
  levelStats (fun a => decide (dc.addressGroup a = g.val)
    && decide (s.levels a ≠ LEVEL_NO_CHANGE)) s

/-- Sum and count over all dimmer addresses whose level is not the sentinel
(`dim_adjust`, group mode with `all`). -/
def broadcastStats (dc : DimmerConfig) (s : LightsModel) : ℕ × ℕ :=
  levelStats (fun a => dc.addresses a && decide (s.levels a ≠ LEVEL_NO_CHANGE)) s

/-- Integer mean used by `dim_adjust`: rounding down when dimming up
(`delta ≥ 0`), rounding up when dimming down. -/
def meanOf (sum count : ℕ) (delta : ℤ) : ℕ :=
  if 0 ≤ delta then sum / count else (sum + count - 1) / count

/-- `std::max(0L, std::min((long)MAX_LEVEL, x))`. -/
def clampLevel (x : ℤ) : ℤ := max 0 (min (MAX_LEVEL : ℤ) x)

/-- Read of the local `group_level` array at a `group_t` index; indexing by
`GROUP_NONE` would be out of bounds in the source and is unreachable for
dimmer configurations built by `make_dimmer`. -/
def glLookup (gl : Fin 16 → ℤ) (n : ℕ) : ℤ :=
  if h : n < 16 then gl ⟨n, h⟩ else 0

/-- The per-group phase of `dim_adjust` in group (non-`all`) mode: for every
selected group with at least one non-sentinel member level, write the clamped
adjusted mean as the group level and mark its members group-governed.
Returns the updated model, the local `group_level` array and whether any
group qualified. -/
def dimGroupPhase (dc : DimmerConfig) (s : LightsModel) (delta : ℤ) :
    LightsModel × (Fin 16 → ℤ) × Bool :=
  let qual : Fin 16 → Prop := fun g => dc.groups g = true ∧ (groupStats dc s g).2 ≠ 0
  let gl : Fin 16 → ℤ := fun g =>
    if qual g then
      clampLevel ((meanOf (groupStats dc s g).1 (groupStats dc s g).2 delta : ℤ) + delta)
    else 0
  ({ s with
      groupLevels := fun g => if qual g then (gl g).toNat else s.groupLevels g
      groupLevelAddresses := fun a => s.groupLevelAddresses a
        || decide (∃ g : Fin 16, qual g ∧ dc.groupAddresses g a = true) },
    gl, decide (∃ g : Fin 16, qual g))

/-- The broadcast phase of `dim_adjust` in group mode with `all`: mean over
every dimmer address with a non-sentinel level. -/
def dimAllPhase (dc : DimmerConfig) (s : LightsModel) (delta : ℤ) :
    LightsModel × ℤ × Bool :=
  if (broadcastStats dc s).2 ≠ 0 then
    let b := clampLevel ((meanOf (broadcastStats dc s).1 (broadcastStats dc s).2 delta : ℤ) + delta)
    ({ s with
        broadcastLevel := b.toNat
        groupLevelAddresses := fun a => s.groupLevelAddresses a || dc.addresses a },
      b, true)
  else (s, 0, false)

/-- The final per-address loop of `dim_adjust`: write the new level for every
dimmer address (`newLevel a = none` models the `continue` taken in individual
mode for sentinel levels), stamp the dim time, set the active preset to
`custom`, and refresh `last_activity_us`. -/
def dimApplyAddresses (dc : DimmerConfig) (s : LightsModel)
    (newLevel : Fin 64 → Option ℕ) (now : ℕ) : LightsModel :=
  { s with
    levels := fun a => if dc.addresses a then (newLevel a).getD (s.levels a) else s.levels a
    dimTimes := fun a =>
      if dc.addresses a ∧ (newLevel a).isSome then now else s.dimTimes a
    activePresets := fun a =>
      if dc.addresses a ∧ (newLevel a).isSome then "custom" else s.activePresets a
    lastActivity := now }

/-- `Lights::dim_adjust(DimmerConfig&&, long)`: reject deltas outside
`[-254, 254]`, run the mode-specific group phase, then the common per-address
loop.  (The source leaves `changed` uninitialised on paths where nothing
qualifies; the returned flag here is its value on the paths where the source
assigns it.) -/
def dimAdjust (cfg : ConfigState) (dc : DimmerConfig) (s : LightsModel)
    (delta : ℤ) (now : ℕ) : LightsModel × Bool :=
  if delta < -(MAX_LEVEL : ℤ) ∨ (MAX_LEVEL : ℤ) < delta then (s, false)
  else if dc.mode = DimmerMode.group then
    if dc.all then
      let r := dimAllPhase dc s delta
      (dimApplyAddresses dc r.1 (fun _ => some r.2.1.toNat) now,
        r.2.2 || decide (∃ a : Fin 64, dc.addresses a = true))
    else
      let r := dimGroupPhase dc s delta
      (dimApplyAddresses dc r.1
          (fun a => some (glLookup r.2.1 (dc.addressGroup a)).toNat) now,
        r.2.2 || decide (∃ a : Fin 64, dc.addresses a = true))
  else
    let st2 := clearGroupLevels cfg (bitsToFinset dc.addresses) s
    (dimApplyAddresses dc st2
        (fun a => if st2.levels a = LEVEL_NO_CHANGE then none
          else some (clampLevel ((st2.levels a : ℤ) + delta)).toNat) now,
      decide (∃ a : Fin 64, dc.addresses a = true ∧ st2.levels a ≠ LEVEL_NO_CHANGE))

/-- The count returned by `levelStats` is non-zero exactly when some address
satisfies the predicate. -/
theorem levelStats_count_ne_zero (p : Fin 64 → Bool) (s : LightsModel) :
    (levelStats p s).2 ≠ 0 ↔ ∃ a : Fin 64, p a = true := by
  have key : ∀ (l : List (Fin 64)) (acc : ℕ × ℕ),
      (l.foldl (fun acc a => if p a then (acc.1 + s.levels a, acc.2 + 1) else acc) acc).2
        = acc.2 + (l.filter p).length := by
    intro l
    induction l with
    | nil => intro acc; simp
    | cons a rest ih =>
      intro acc
      by_cases hp : p a
      · simp [List.filter_cons, hp, ih]
        omega
      · simp [List.filter_cons, hp, ih]
  constructor
  · intro h
    rw [levelStats, key] at h
    have : (List.finRange 64).filter p ≠ [] := by
      intro hnil
      rw [hnil] at h
      simp at h
    obtain ⟨a, ha⟩ := List.exists_mem_of_ne_nil _ this
    exact ⟨a, List.of_mem_filter ha⟩
  · intro ⟨a, ha⟩
    rw [levelStats, key]
    have : a ∈ (List.finRange 64).filter p :=
      List.mem_filter.2 ⟨List.mem_finRange a, ha⟩
    have := List.length_pos.2 (List.ne_nil_of_mem this)
    omega

/-- Effect of the group phase on a selected group with a non-zero member
count. -/
theorem dimGroupPhase_sel (dc : DimmerConfig) (s : LightsModel) (delta : ℤ)
    (g : Fin 16) (hsel : dc.groups g = true) (hcnt : (groupStats dc s g).2 ≠ 0) :
    (dimGroupPhase dc s delta).1.groupLevels g
      = (clampLevel ((meanOf (groupStats dc s g).1 (groupStats dc s g).2 delta : ℤ)
          + delta)).toNat
    ∧ (dimGroupPhase dc s delta).2.1 g
      = clampLevel ((meanOf (groupStats dc s g).1 (groupStats dc s g).2 delta : ℤ) + delta)
    ∧ ∀ a, dc.groupAddresses g a = true →
        (dimGroupPhase dc s delta).1.groupLevelAddresses a = true := by
  have hqual : dc.groups g = true ∧ (groupStats dc s g).2 ≠ 0 := ⟨hsel, hcnt⟩
  refine ⟨?_, ?_, ?_⟩
  · simp [dimGroupPhase, hqual]
  · simp [dimGroupPhase, hqual]
  · intro a ha
    simp only [dimGroupPhase, Bool.or_eq_true, decide_eq_true_eq]
    exact Or.inr ⟨g, hqual, ha⟩

/-- C6: a `dim_adjust` call in group mode with delta in `[-254, 254]`, for a
selected group with at least one member whose level is not the sentinel,
stores as the group level the clamp to `[0, 254]` of `mean + delta`, where
`mean` is the integer mean of the non-sentinel member levels rounded down for
`delta ≥ 0` and up for `delta < 0`; it marks every member address as
group-governed in the group-level mask and sets every member's individual
level to that group level.  (The hypotheses relating `addresses`,
`address_group` and `group_addresses` are the construction invariants of
`Config::make_dimmer`.) -/
theorem c6_dim_adjust_group_mode (cfg : ConfigState) (dc : DimmerConfig)
    (s : LightsModel) (delta : ℤ) (now : ℕ) (g : Fin 16)
    (hmode : dc.mode = DimmerMode.group) (hall : dc.all = false)
    (haddr : ∀ a, dc.addresses a = true ↔ dc.addressGroup a ≠ GROUP_NONE)
    (hmember : ∀ (g' : Fin 16) (a : Fin 64),
      dc.groupAddresses g' a = true ↔ dc.addressGroup a = g'.val)
    (hdelta : -(MAX_LEVEL : ℤ) ≤ delta ∧ delta ≤ (MAX_LEVEL : ℤ))
    (hsel : dc.groups g = true)
    (hsome : ∃ a, dc.groupAddresses g a = true ∧ s.levels a ≠ LEVEL_NO_CHANGE) :
    (dimAdjust cfg dc s delta now).1.groupLevels g
      = (clampLevel ((meanOf
          (levelStats (fun a => dc.groupAddresses g a
            && decide (s.levels a ≠ LEVEL_NO_CHANGE)) s).1
          (levelStats (fun a => dc.groupAddresses g a
            && decide (s.levels a ≠ LEVEL_NO_CHANGE)) s).2 delta : ℤ) + delta)).toNat
    ∧ ∀ a, dc.groupAddresses g a = true →
        (dimAdjust cfg dc s delta now).1.groupLevelAddresses a = true
        ∧ (dimAdjust cfg dc s delta now).1.levels a
          = (clampLevel ((meanOf
              (levelStats (fun a => dc.groupAddresses g a
                && decide (s.levels a ≠ LEVEL_NO_CHANGE)) s).1
              (levelStats (fun a => dc.groupAddresses g a
                && decide (s.levels a ≠ LEVEL_NO_CHANGE)) s).2 delta : ℤ) + delta)).toNat := by
  have hP : (fun a => dc.groupAddresses g a && decide (s.levels a ≠ LEVEL_NO_CHANGE))
      = (fun a => decide (dc.addressGroup a = g.val)
          && decide (s.levels a ≠ LEVEL_NO_CHANGE)) := by
    funext a
    by_cases h : dc.addressGroup a = g.val
    · rw [(hmember g a).2 h]
      simp [h]
    · have h2 : dc.groupAddresses g a = false := by
        cases hga : dc.groupAddresses g a
        · rfl
        · exact absurd ((hmember g a).1 hga) h
      rw [h2]
      simp [h]
  have hstats : levelStats (fun a => dc.groupAddresses g a
      && decide (s.levels a ≠ LEVEL_NO_CHANGE)) s = groupStats dc s g := by
    rw [groupStats, hP]
  have hcnt : (groupStats dc s g).2 ≠ 0 := by
    rw [← hstats]
    refine (levelStats_count_ne_zero _ s).2 ?_
    obtain ⟨a, ha, hl⟩ := hsome
    exact ⟨a, by simp [ha, hl]⟩
  have hdguard : ¬(delta < -(MAX_LEVEL : ℤ) ∨ (MAX_LEVEL : ℤ) < delta) := by
    push_neg
    exact ⟨hdelta.1, hdelta.2⟩
  have hmain : dimAdjust cfg dc s delta now
      = (dimApplyAddresses dc (dimGroupPhase dc s delta).1
          (fun a => some (glLookup (dimGroupPhase dc s delta).2.1
            (dc.addressGroup a)).toNat) now,
        (dimGroupPhase dc s delta).2.2
          || decide (∃ a : Fin 64, dc.addresses a = true)) := by
    rw [dimAdjust, if_neg hdguard, if_pos hmode, hall]
    simp
  obtain ⟨hgl, hglArr, hmask⟩ := dimGroupPhase_sel dc s delta g hsel hcnt
  rw [hstats]
  refine ⟨?_, ?_⟩
  · rw [hmain]
    exact hgl
  · intro a ha
    have hag : dc.addressGroup a = g.val := (hmember g a).1 ha
    have haa : dc.addresses a = true := by
      refine (haddr a).2 ?_
      rw [hag]
      have := g.isLt
      simp only [GROUP_NONE]
      omega
    constructor
    · rw [hmain]
      exact hmask a ha
    · rw [hmain]
      show (if dc.addresses a then _ else _) = _
      rw [if_pos haa]
      simp only [Option.getD_some]
      rw [hag]
      have hlt : g.val < 16 := g.isLt
      rw [glLookup, dif_pos hlt]
      have : (⟨g.val, hlt⟩ : Fin 16) = g := Fin.ext rfl
      rw [this, hglArr]

/-- Concrete dimmer configuration for the C6 witness: group-mode dimmer over
group 3 = {5, 6}. -/
def c6dc : DimmerConfig where
  mode := DimmerMode.group
  addresses := fun a => a = 5 ∨ a = 6
  groups := fun go => go = 3
  addressGroup := fun a => if a = 5 ∨ a = 6 then 3 else GROUP_NONE
  groupAddresses := fun go a => go = 3 ∧ (a = 5 ∨ a = 6)
  all := false

/-- Concrete light model for the C6 witness: levels 100 and 120 on the two
members. -/
def c6lm : LightsModel :=
  ⟨fun a => if a = 5 then 100 else if a = 6 then 120 else LEVEL_NO_CHANGE,
    fun _ => LEVEL_NO_CHANGE, LEVEL_NO_CHANGE, fun _ => false,
    fun _ => "unknown", fun _ => 0, 0⟩

/-- Witness for C6 at the spec's concrete example: members at 100 and 120
with delta +20 give mean 110 and group level 130 for the group and for both
members. -/
theorem c6_dim_adjust_group_mode_witness :
    (c6dc.mode = DimmerMode.group ∧ c6dc.all = false
      ∧ (∀ a, c6dc.addresses a = true ↔ c6dc.addressGroup a ≠ GROUP_NONE)
      ∧ (∀ (g' : Fin 16) (a : Fin 64),
          c6dc.groupAddresses g' a = true ↔ c6dc.addressGroup a = g'.val)
      ∧ (-(MAX_LEVEL : ℤ) ≤ 20 ∧ (20 : ℤ) ≤ (MAX_LEVEL : ℤ))
      ∧ c6dc.groups 3 = true
      ∧ (∃ a, c6dc.groupAddresses 3 a = true ∧ c6lm.levels a ≠ LEVEL_NO_CHANGE))
    ∧ (dimAdjust ⟨fun _ => true, [], fun _ _ => false, [], []⟩ c6dc c6lm 20 0).1.groupLevels 3
        = 130
    ∧ (dimAdjust ⟨fun _ => true, [], fun _ _ => false, [], []⟩ c6dc c6lm 20 0).1.levels 5
        = 130
    ∧ (dimAdjust ⟨fun _ => true, [], fun _ _ => false, [], []⟩ c6dc c6lm 20 0).1.levels 6
        = 130 := by
  have hyp1 : ∀ a, c6dc.addresses a = true ↔ c6dc.addressGroup a ≠ GROUP_NONE := by decide
  have hyp2 : ∀ (g' : Fin 16) (a : Fin 64),
      c6dc.groupAddresses g' a = true ↔ c6dc.addressGroup a = g'.val := by decide
  have hyp3 : ∃ a, c6dc.groupAddresses 3 a = true ∧ c6lm.levels a ≠ LEVEL_NO_CHANGE :=
    ⟨5, by decide, by decide⟩
  have hmean : (clampLevel ((meanOf
      (levelStats (fun a => c6dc.groupAddresses 3 a
        && decide (c6lm.levels a ≠ LEVEL_NO_CHANGE)) c6lm).1
      (levelStats (fun a => c6dc.groupAddresses 3 a
        && decide (c6lm.levels a ≠ LEVEL_NO_CHANGE)) c6lm).2 20 : ℤ) + 20)).toNat
      = 130 := by decide
  have h := c6_dim_adjust_group_mode ⟨fun _ => true, [], fun _ _ => false, [], []⟩
    c6dc c6lm 20 0 3 rfl rfl hyp1 hyp2 ⟨by decide, by decide⟩ (by decide) hyp3
  refine ⟨⟨rfl, rfl, hyp1, hyp2, ⟨by decide, by decide⟩, by decide, hyp3⟩, ?_, ?_, ?_⟩
  · rw [h.1, hmean]
  · rw [(h.2 5 (by decide)).2, hmean]
  · rw [(h.2 6 (by decide)).2, hmean]

/-! ## Battery-backed RTC persistence of the level vector
(`Lights::save_rtc_state`, `Lights::load_rtc_state`, `Lights::rtc_crc`)

The CRC is `esp_crc32_le(0, bytes, 64)`, the standard reflected CRC-32
(polynomial `0xEDB88320`, initial complement, final complement), taken over
the little-endian byte image of the 16 packed words, then XOR-ed with the
magic constant. -/

/-- `Lights::RTC_MAGIC = 0x0d1325ab`. -/
def RTC_MAGIC : ℕ := 0x0d1325ab

/-- The reflected CRC-32 polynomial. -/
def CRC_POLY : ℕ := 0xEDB88320

/-- One bit step of the reflected CRC-32: shift right, conditionally XOR the
polynomial on the dropped bit. -/
def crcBit (c : ℕ) : ℕ :=
  if c % 2 = 1 then (c / 2) ^^^ CRC_POLY else c / 2

/-- One byte step: XOR the byte into the low bits, then eight bit steps. -/
def crcByte (c b : ℕ) : ℕ := crcBit^[8] (c ^^^ b)

/-- `esp_crc32_le`: complement in, process the bytes, complement out. -/
def crc32le (crc : ℕ) (bytes : List ℕ) : ℕ :=
  (bytes.foldl crcByte (crc ^^^ 0xFFFFFFFF)) ^^^ 0xFFFFFFFF

/-- Little-endian byte image of one 32-bit word. -/
def wordBytesLE (w : ℕ) : List ℕ :=
  [w % 2 ^ 8, (w / 2 ^ 8) % 2 ^ 8, (w / 2 ^ 16) % 2 ^ 8, (w / 2 ^ 24) % 2 ^ 8]

/-- Byte image of the 16-word RTC level array. -/
def rtcBytes (words : Fin 16 → ℕ) : List ℕ :=
  (List.finRange 16).flatMap (fun j => wordBytesLE (words j))

/-- `Lights::rtc_crc`: CRC-32 of the level words XOR-ed with the magic. -/
def rtcCrc (words : Fin 16 → ℕ) : ℕ :=
  crc32le 0 (rtcBytes words) ^^^ RTC_MAGIC

/-- Pack four consecutive levels into one word
(`levels[i/4] |= levels_[i] << (8 * (i % 4))` in `save_rtc_state`). -/
def packWord (levels : Fin 64 → ℕ) (j : Fin 16) : ℕ :=
  levels ⟨4 * j.val, by have := j.isLt; omega⟩
    ||| (levels ⟨4 * j.val + 1, by have := j.isLt; omega⟩ <<< 8)
    ||| (levels ⟨4 * j.val + 2, by have := j.isLt; omega⟩ <<< 16)
    ||| (levels ⟨4 * j.val + 3, by have := j.isLt; omega⟩ <<< 24)

/-- The battery-backed region: `rtc_levels_[16]` and `rtc_crc_`. -/
structure RTCState where
  words : Fin 16 → ℕ
  crc : ℕ

/-- `Lights::save_rtc_state`: pack the 64 levels and store the checksum. -/
def saveRtcState (levels : Fin 64 → ℕ) : RTCState :=
  ⟨fun j => packWord levels j, rtcCrc (fun j => packWord levels j)⟩

/-- Level extraction used by `load_rtc_state`:
`(levels[i/4] >> (8 * (i % 4))) & 0xFF`. -/
def extractLevel (words : Fin 16 → ℕ) (i : Fin 64) : ℕ :=
  (words ⟨i.val / 4, by have := i.isLt; omega⟩ >>> (8 * (i.val % 4))) &&& 0xFF

/-- `BootRTCStatus` (`util.h`). -/
inductive BootRTC where
  | unknown
  | powerOnIgnored
  | checksumMismatch
  | loadedOk
deriving DecidableEq, Repr

/-- `Lights::load_rtc_state`: ignore the region on first power-on, restore
the levels when the checksum matches, otherwise leave them untouched. -/
def loadRtcState (powerOnReset : Bool) (rtc : RTCState) (levels : Fin 64 → ℕ) :
    BootRTC × (Fin 64 → ℕ) :=
  if powerOnReset then (BootRTC.powerOnIgnored, levels)
  else if rtc.crc = rtcCrc rtc.words then
    (BootRTC.loadedOk, fun i => extractLevel rtc.words i)
  else (BootRTC.checksumMismatch, levels)

/-- Flip one bit of one saved level word. -/
def flipWordBit (rtc : RTCState) (j : Fin 16) (k : ℕ) : RTCState :=
  { rtc with words := Function.update rtc.words j (rtc.words j ^^^ 2 ^ k) }

/-- Flip one bit of the saved checksum. -/
def flipCrcBit (rtc : RTCState) (k : ℕ) : RTCState :=
  { rtc with crc := rtc.crc ^^^ 2 ^ k }

/-! ### Packing and extraction -/

/-- Disjoint OR is addition: OR-ing a value below `2 ^ n` with a left shift
by `n`. -/
theorem lor_shiftLeft_eq_add {a : ℕ} (n b : ℕ) (ha : a < 2 ^ n) :
    a ||| (b <<< n) = 2 ^ n * b + a := by
  apply Nat.eq_of_testBit_eq
  intro i
  rw [Nat.testBit_lor, Nat.testBit_shiftLeft, Nat.testBit_mul_pow_two_add _ ha]
  by_cases h : i < n
  · simp [h, Nat.not_le.2 h]
  · have hge : n ≤ i := Nat.not_lt.1 h
    have hfa : a.testBit i = false :=
      Nat.testBit_lt_two_pow (lt_of_lt_of_le ha (Nat.pow_le_pow_right (by omega) hge))
    simp [h, hge, hfa]

/-- Arithmetic form of `packWord`. -/
theorem packWord_eq (levels : Fin 64 → ℕ) (j : Fin 16)
    (h : ∀ i, levels i ≤ 255) :
    packWord levels j
      = levels ⟨4 * j.val, by have := j.isLt; omega⟩
        + 2 ^ 8 * levels ⟨4 * j.val + 1, by have := j.isLt; omega⟩
        + 2 ^ 16 * levels ⟨4 * j.val + 2, by have := j.isLt; omega⟩
        + 2 ^ 24 * levels ⟨4 * j.val + 3, by have := j.isLt; omega⟩ := by
  have h0 := h ⟨4 * j.val, by have := j.isLt; omega⟩
  have h1 := h ⟨4 * j.val + 1, by have := j.isLt; omega⟩
  have h2 := h ⟨4 * j.val + 2, by have := j.isLt; omega⟩
  have h3 := h ⟨4 * j.val + 3, by have := j.isLt; omega⟩
  rw [packWord, lor_shiftLeft_eq_add 8 _ (by omega),
    lor_shiftLeft_eq_add 16 _ (by omega), lor_shiftLeft_eq_add 24 _ (by omega)]
  ring

/-- The packed word is a 32-bit value. -/
theorem packWord_lt (levels : Fin 64 → ℕ) (j : Fin 16)
    (h : ∀ i, levels i ≤ 255) : packWord levels j < 2 ^ 32 := by
  rw [packWord_eq levels j h]
  have h0 := h ⟨4 * j.val, by have := j.isLt; omega⟩
  have h1 := h ⟨4 * j.val + 1, by have := j.isLt; omega⟩
  have h2 := h ⟨4 * j.val + 2, by have := j.isLt; omega⟩
  have h3 := h ⟨4 * j.val + 3, by have := j.isLt; omega⟩
  omega

/-- Byte extraction from a packed four-byte value. -/
theorem four_byte_extract (l0 l1 l2 l3 : ℕ) (h0 : l0 ≤ 255) (h1 : l1 ≤ 255)
    (h2 : l2 ≤ 255) (h3 : l3 ≤ 255) :
    (l0 + 2 ^ 8 * l1 + 2 ^ 16 * l2 + 2 ^ 24 * l3) / 2 ^ (8 * 0) % 2 ^ 8 = l0
    ∧ (l0 + 2 ^ 8 * l1 + 2 ^ 16 * l2 + 2 ^ 24 * l3) / 2 ^ (8 * 1) % 2 ^ 8 = l1
    ∧ (l0 + 2 ^ 8 * l1 + 2 ^ 16 * l2 + 2 ^ 24 * l3) / 2 ^ (8 * 2) % 2 ^ 8 = l2
    ∧ (l0 + 2 ^ 8 * l1 + 2 ^ 16 * l2 + 2 ^ 24 * l3) / 2 ^ (8 * 3) % 2 ^ 8 = l3 := by
  refine ⟨?_, ?_, ?_, ?_⟩ <;> norm_num <;> omega

/-- Extraction undoes packing. -/
theorem extractLevel_packWord (levels : Fin 64 → ℕ) (i : Fin 64)
    (h : ∀ i, levels i ≤ 255) :
    extractLevel (fun j => packWord levels j) i = levels i := by
  rw [extractLevel, Nat.shiftRight_eq_div_pow,
    show (0xFF : ℕ) = 2 ^ 8 - 1 from rfl, Nat.and_pow_two_sub_one_eq_mod,
    packWord_eq levels _ h]
  have hiv := i.isLt
  have he := four_byte_extract
    (levels ⟨4 * ((⟨i.val / 4, by omega⟩ : Fin 16) : Fin 16).val, by omega⟩)
    (levels ⟨4 * ((⟨i.val / 4, by omega⟩ : Fin 16) : Fin 16).val + 1, by omega⟩)
    (levels ⟨4 * ((⟨i.val / 4, by omega⟩ : Fin 16) : Fin 16).val + 2, by omega⟩)
    (levels ⟨4 * ((⟨i.val / 4, by omega⟩ : Fin 16) : Fin 16).val + 3, by omega⟩)
    (h _) (h _) (h _) (h _)
  rcases (by omega : i.val % 4 = 0 ∨ i.val % 4 = 1 ∨ i.val % 4 = 2 ∨ i.val % 4 = 3)
      with hr | hr | hr | hr <;> rw [hr]
  · rw [he.1]
    exact congrArg levels (Fin.ext (by simp; omega))
  · rw [he.2.1]
    exact congrArg levels (Fin.ext (by simp; omega))
  · rw [he.2.2.1]
    exact congrArg levels (Fin.ext (by simp; omega))
  · rw [he.2.2.2]
    exact congrArg levels (Fin.ext (by simp; omega))

/-! ### Injectivity of the CRC state transformation

Every CRC step is injective on 32-bit states, so any single-byte difference
in the input propagates to a different checksum. -/

/-- The bit step keeps the state inside 32 bits. -/
theorem crcBit_lt {c : ℕ} (hc : c < 2 ^ 32) : crcBit c < 2 ^ 32 := by
  rw [crcBit]
  split
  · exact Nat.xor_lt_two_pow (by omega) (by decide)
  · omega

/-- Bit 31 of the stepped state records the dropped parity bit. -/
theorem crcBit_testBit31 (c : ℕ) (hc : c < 2 ^ 32) :
    (crcBit c).testBit 31 = decide (c % 2 = 1) := by
  have hhalf : (c / 2).testBit 31 = false :=
    Nat.testBit_lt_two_pow (by omega)
  rw [crcBit]
  by_cases h : c % 2 = 1
  · rw [if_pos h]
    rw [Nat.testBit_xor, hhalf]
    simp [h, show Nat.testBit CRC_POLY 31 = true from by decide]
  · rw [if_neg h]
    rw [hhalf]
    simp [h]

/-- The bit step is injective on 32-bit states. -/
theorem crcBit_inj {c d : ℕ} (hc : c < 2 ^ 32) (hd : d < 2 ^ 32)
    (h : crcBit c = crcBit d) : c = d := by
  have hpar : decide (c % 2 = 1) = decide (d % 2 = 1) := by
    rw [← crcBit_testBit31 c hc, ← crcBit_testBit31 d hd, h]
  have hpar2 : c % 2 = 1 ↔ d % 2 = 1 := decide_eq_decide.1 hpar
  by_cases hco : c % 2 = 1
  · have hdo : d % 2 = 1 := hpar2.1 hco
    rw [crcBit, crcBit, if_pos hco, if_pos hdo] at h
    have := Nat.xor_left_inj.1 h
    omega
  · have hdo : ¬(d % 2 = 1) := fun hd1 => hco (hpar2.2 hd1)
    rw [crcBit, crcBit, if_neg hco, if_neg hdo] at h
    omega

/-- Iterated bit steps stay inside 32 bits. -/
theorem crcBit_iter_lt (k : ℕ) {c : ℕ} (hc : c < 2 ^ 32) :
    crcBit^[k] c < 2 ^ 32 := by
  induction k generalizing c with
  | zero => exact hc
  | succ n ih =>
    rw [Function.iterate_succ_apply]
    exact ih (crcBit_lt hc)

/-- Iterated bit steps are injective on 32-bit states. -/
theorem crcBit_iter_inj (k : ℕ) {c d : ℕ} (hc : c < 2 ^ 32) (hd : d < 2 ^ 32)
    (h : crcBit^[k] c = crcBit^[k] d) : c = d := by
  induction k generalizing c d with
  | zero => exact h
  | succ n ih =>
    rw [Function.iterate_succ_apply, Function.iterate_succ_apply] at h
    exact crcBit_inj hc hd (ih (crcBit_lt hc) (crcBit_lt hd) h)

/-- The byte step keeps the state inside 32 bits. -/
theorem crcByte_lt {c b : ℕ} (hc : c < 2 ^ 32) (hb : b < 2 ^ 32) :
    crcByte c b < 2 ^ 32 :=
  crcBit_iter_lt 8 (Nat.xor_lt_two_pow hc hb)

/-- The byte step is injective in the state. -/
theorem crcByte_inj_state {c d b : ℕ} (hc : c < 2 ^ 32) (hd : d < 2 ^ 32)
    (hb : b < 2 ^ 32) (h : crcByte c b = crcByte d b) : c = d :=
  Nat.xor_left_inj.1
    (crcBit_iter_inj 8 (Nat.xor_lt_two_pow hc hb) (Nat.xor_lt_two_pow hd hb) h)

/-- The byte step separates different bytes fed from the same state. -/
theorem crcByte_ne_byte {c b b' : ℕ} (hc : c < 2 ^ 32) (hb : b < 2 ^ 32)
    (hb' : b' < 2 ^ 32) (hne : b ≠ b') : crcByte c b ≠ crcByte c b' := by
  intro h
  exact hne (Nat.xor_right_inj.1
    (crcBit_iter_inj 8 (Nat.xor_lt_two_pow hc hb) (Nat.xor_lt_two_pow hc hb') h))

/-- Folding byte steps keeps the state inside 32 bits. -/
theorem crcFold_lt : ∀ (bytes : List ℕ), (∀ b ∈ bytes, b < 2 ^ 32) →
    ∀ {c : ℕ}, c < 2 ^ 32 → bytes.foldl crcByte c < 2 ^ 32 := by
  intro bytes
  induction bytes with
  | nil => intro _ c hc; exact hc
  | cons b rest ih =>
    intro hb c hc
    rw [List.foldl_cons]
    exact ih (fun x hx => hb x (List.mem_cons_of_mem b hx))
      (crcByte_lt hc (hb b (List.mem_cons_self b rest)))

/-- Folding byte steps is injective in the initial state. -/
theorem crcFold_inj : ∀ (bytes : List ℕ), (∀ b ∈ bytes, b < 2 ^ 32) →
    ∀ {c d : ℕ}, c < 2 ^ 32 → d < 2 ^ 32 →
      bytes.foldl crcByte c = bytes.foldl crcByte d → c = d := by
  intro bytes
  induction bytes with
  | nil => intro _ c d _ _ h; exact h
  | cons b rest ih =>
    intro hb c d hc hd h
    rw [List.foldl_cons, List.foldl_cons] at h
    have hbb := hb b (List.mem_cons_self b rest)
    exact crcByte_inj_state hc hd hbb
      (ih (fun x hx => hb x (List.mem_cons_of_mem b hx))
        (crcByte_lt hc hbb) (crcByte_lt hd hbb) h)

/-- Byte lists differing in exactly one byte fold to different states. -/
theorem crcFold_single_diff (P T : List ℕ) (x y : ℕ) {c : ℕ}
    (hc : c < 2 ^ 32) (hP : ∀ b ∈ P, b < 2 ^ 32) (hT : ∀ b ∈ T, b < 2 ^ 32)
    (hx : x < 2 ^ 32) (hy : y < 2 ^ 32) (hne : x ≠ y) :
    (P ++ x :: T).foldl crcByte c ≠ (P ++ y :: T).foldl crcByte c := by
  intro h
  rw [List.foldl_append, List.foldl_append, List.foldl_cons, List.foldl_cons] at h
  have hcp : P.foldl crcByte c < 2 ^ 32 := crcFold_lt P hP hc
  exact crcByte_ne_byte hcp hx hy hne
    (crcFold_inj T hT (crcByte_lt hcp hx) (crcByte_lt hcp hy) h)

/-! ### Effect of a single-bit flip on the byte image -/

/-- Flipping bit `k` of a word changes the byte window at `s` exactly when
`k` falls inside it, and then by flipping bit `k - s` of that byte. -/
theorem byte_window_xor (w k s : ℕ) :
    ((w ^^^ 2 ^ k) / 2 ^ s) % 2 ^ 8
      = if s ≤ k ∧ k < s + 8 then ((w / 2 ^ s) % 2 ^ 8) ^^^ 2 ^ (k - s)
        else (w / 2 ^ s) % 2 ^ 8 := by
  have hdiv : ∀ (x i : ℕ), (x / 2 ^ s).testBit i = x.testBit (s + i) := fun x i => by
    rw [← Nat.shiftRight_eq_div_pow, Nat.testBit_shiftRight]
  by_cases hcond : s ≤ k ∧ k < s + 8
  · rw [if_pos hcond]
    apply Nat.eq_of_testBit_eq
    intro i
    simp only [Nat.testBit_mod_two_pow, Nat.testBit_xor, hdiv, Nat.testBit_two_pow]
    by_cases hi : i < 8
    · have hiff : (k = s + i) ↔ (k - s = i) := by omega
      simp [hi, hiff]
    · have h1 : ¬(k - s = i) := by omega
      simp [hi, h1]
  · rw [if_neg hcond]
    apply Nat.eq_of_testBit_eq
    intro i
    simp only [Nat.testBit_mod_two_pow, Nat.testBit_xor, hdiv, Nat.testBit_two_pow]
    by_cases hi : i < 8
    · have h1 : ¬(k = s + i) := by omega
      simp [hi, h1]
    · simp [hi]

/-- Every byte of a word image is below `2 ^ 8`. -/
theorem wordBytesLE_lt (w : ℕ) : ∀ b ∈ wordBytesLE w, b < 2 ^ 8 := by
  intro b hb
  simp only [wordBytesLE, List.mem_cons, List.not_mem_nil, or_false] at hb
  rcases hb with rfl | rfl | rfl | rfl <;> exact Nat.mod_lt _ (by norm_num)

/-- Flipping one bit (below 32) of a word changes exactly one byte of its
image, by a single-bit flip of that byte. -/
theorem wordBytesLE_flip (w k : ℕ) (hk : k < 32) :
    ∃ (P T : List ℕ) (x r : ℕ),
      r < 8 ∧ x < 2 ^ 8
      ∧ wordBytesLE w = P ++ x :: T
      ∧ wordBytesLE (w ^^^ 2 ^ k) = P ++ (x ^^^ 2 ^ r) :: T
      ∧ (∀ b ∈ P, b < 2 ^ 8) ∧ (∀ b ∈ T, b < 2 ^ 8) := by
  have hm : ∀ x : ℕ, x % 2 ^ 8 < 2 ^ 8 := fun x => Nat.mod_lt _ (by norm_num)
  have e0 := byte_window_xor w k 0
  have e8 := byte_window_xor w k 8
  have e16 := byte_window_xor w k 16
  have e24 := byte_window_xor w k 24
  simp only [pow_zero, Nat.div_one, Nat.sub_zero] at e0
  rcases (by omega : k < 8 ∨ (8 ≤ k ∧ k < 16) ∨ (16 ≤ k ∧ k < 24)
      ∨ (24 ≤ k ∧ k < 32)) with hq | hq | hq | hq
  · rw [if_pos ⟨Nat.zero_le k, by omega⟩] at e0
    rw [if_neg (by omega)] at e8
    rw [if_neg (by omega)] at e16
    rw [if_neg (by omega)] at e24
    exact ⟨[], [(w / 2 ^ 8) % 2 ^ 8, (w / 2 ^ 16) % 2 ^ 8, (w / 2 ^ 24) % 2 ^ 8],
      w % 2 ^ 8, k, by omega, hm w, rfl,
      by rw [wordBytesLE, e0, e8, e16, e24]; rfl,
      by intro b hb; simp at hb,
      by intro b hb
         simp only [List.mem_cons, List.not_mem_nil, or_false] at hb
         rcases hb with rfl | rfl | rfl <;> exact hm _⟩
  · rw [if_neg (by omega)] at e0
    rw [if_pos ⟨by omega, by omega⟩] at e8
    rw [if_neg (by omega)] at e16
    rw [if_neg (by omega)] at e24
    exact ⟨[w % 2 ^ 8], [(w / 2 ^ 16) % 2 ^ 8, (w / 2 ^ 24) % 2 ^ 8],
      (w / 2 ^ 8) % 2 ^ 8, k - 8, by omega, hm _, rfl,
      by rw [wordBytesLE, e0, e8, e16, e24]; rfl,
      by intro b hb
         simp only [List.mem_cons, List.not_mem_nil, or_false] at hb
         subst hb; exact hm _,
      by intro b hb
         simp only [List.mem_cons, List.not_mem_nil, or_false] at hb
         rcases hb with rfl | rfl <;> exact hm _⟩
  · rw [if_neg (by omega)] at e0
    rw [if_neg (by omega)] at e8
    rw [if_pos ⟨by omega, by omega⟩] at e16
    rw [if_neg (by omega)] at e24
    exact ⟨[w % 2 ^ 8, (w / 2 ^ 8) % 2 ^ 8], [(w / 2 ^ 24) % 2 ^ 8],
      (w / 2 ^ 16) % 2 ^ 8, k - 16, by omega, hm _, rfl,
      by rw [wordBytesLE, e0, e8, e16, e24]; rfl,
      by intro b hb
         simp only [List.mem_cons, List.not_mem_nil, or_false] at hb
         rcases hb with rfl | rfl <;> exact hm _,
      by intro b hb
         simp only [List.mem_cons, List.not_mem_nil, or_false] at hb
         subst hb; exact hm _⟩
  · rw [if_neg (by omega)] at e0
    rw [if_neg (by omega)] at e8
    rw [if_neg (by omega)] at e16
    rw [if_pos ⟨by omega, by omega⟩] at e24
    exact ⟨[w % 2 ^ 8, (w / 2 ^ 8) % 2 ^ 8, (w / 2 ^ 16) % 2 ^ 8], [],
      (w / 2 ^ 24) % 2 ^ 8, k - 24, by omega, hm _, rfl,
      by rw [wordBytesLE, e0, e8, e16, e24]; rfl,
      by intro b hb
         simp only [List.mem_cons, List.not_mem_nil, or_false] at hb
         rcases hb with rfl | rfl | rfl <;> exact hm _,
      by intro b hb; simp at hb⟩

/-- Pointwise-equal functions give equal flat maps. -/
theorem flatMap_fun_congr {α β : Type} (f g : α → List β) :
    ∀ l : List α, (∀ x ∈ l, f x = g x) → l.flatMap f = l.flatMap g := by
  intro l
  induction l with
  | nil => intro _; rfl
  | cons a rest ih =>
    intro h
    rw [List.flatMap_cons, List.flatMap_cons, h a (List.mem_cons_self a rest),
      ih (fun x hx => h x (List.mem_cons_of_mem a hx))]

/-- Updating one word splits the RTC byte image into a common prefix, that
word's image and a common suffix. -/
theorem rtcBytes_update_decomp (words : Fin 16 → ℕ) (j : Fin 16) (w' : ℕ) :
    ∃ A B, rtcBytes words = A ++ (wordBytesLE (words j) ++ B)
      ∧ rtcBytes (Function.update words j w') = A ++ (wordBytesLE w' ++ B)
      ∧ (∀ b ∈ A, b < 2 ^ 8) ∧ (∀ b ∈ B, b < 2 ^ 8) := by
  obtain ⟨s, t, hst⟩ := List.append_of_mem (List.mem_finRange j)
  have hnd := List.nodup_finRange 16
  rw [hst, List.nodup_append] at hnd
  have hjs : j ∉ s := fun hj => (hnd.2.2 hj (List.mem_cons_self j t)).elim
  have hjt : j ∉ t := (List.nodup_cons.1 hnd.2.1).1
  have hs : s.flatMap (fun x => wordBytesLE (Function.update words j w' x))
      = s.flatMap (fun x => wordBytesLE (words x)) :=
    flatMap_fun_congr _ _ s (fun x hx => by
      rw [Function.update_noteq (fun he => hjs (by rw [← he]; exact hx))])
  have ht : t.flatMap (fun x => wordBytesLE (Function.update words j w' x))
      = t.flatMap (fun x => wordBytesLE (words x)) :=
    flatMap_fun_congr _ _ t (fun x hx => by
      rw [Function.update_noteq (fun he => hjt (by rw [← he]; exact hx))])
  have hbound : ∀ (l : List (Fin 16)) (b : ℕ),
      b ∈ l.flatMap (fun x => wordBytesLE (words x)) → b < 2 ^ 8 := by
    intro l b hb
    obtain ⟨x, _, hbx⟩ := List.mem_flatMap.1 hb
    exact wordBytesLE_lt _ b hbx
  refine ⟨s.flatMap (fun x => wordBytesLE (words x)),
    t.flatMap (fun x => wordBytesLE (words x)), ?_, ?_, hbound s, hbound t⟩
  · rw [rtcBytes, hst, List.flatMap_append, List.flatMap_cons]
  · rw [rtcBytes, hst, List.flatMap_append, List.flatMap_cons, hs, ht,
      Function.update_same]

/-- Flipping a bit never leaves a number unchanged. -/
theorem xor_two_pow_ne (x k : ℕ) : x ^^^ 2 ^ k ≠ x := by
  intro h
  have h2 : x ^^^ 2 ^ k = x ^^^ 0 := by rw [Nat.xor_zero, h]
  have := Nat.xor_right_inj.1 h2
  exact absurd this (Nat.pos_iff_ne_zero.1 (Nat.pos_pow_of_pos k (by norm_num)))

/-- Flipping any single bit of any saved word changes the stored checksum
value that `rtc_crc` computes. -/
theorem rtcCrc_flip_ne (words : Fin 16 → ℕ) (j : Fin 16) (k : ℕ) (hk : k < 32) :
    rtcCrc (Function.update words j (words j ^^^ 2 ^ k)) ≠ rtcCrc words := by
  intro h
  have h2 : crc32le 0 (rtcBytes (Function.update words j (words j ^^^ 2 ^ k)))
      = crc32le 0 (rtcBytes words) := Nat.xor_left_inj.1 h
  have h3 : (rtcBytes (Function.update words j (words j ^^^ 2 ^ k))).foldl crcByte
        (0 ^^^ 0xFFFFFFFF)
      = (rtcBytes words).foldl crcByte (0 ^^^ 0xFFFFFFFF) := Nat.xor_left_inj.1 h2
  obtain ⟨A, B, hAB1, hAB2, hA, hB⟩ :=
    rtcBytes_update_decomp words j (words j ^^^ 2 ^ k)
  obtain ⟨P, T, x, r, hr, hx, hPT1, hPT2, hP, hT⟩ := wordBytesLE_flip (words j) k hk
  rw [hAB1, hAB2, hPT1, hPT2] at h3
  have hshape1 : A ++ ((P ++ (x ^^^ 2 ^ r) :: T) ++ B)
      = (A ++ P) ++ (x ^^^ 2 ^ r) :: (T ++ B) := by
    simp [List.append_assoc]
  have hshape2 : A ++ ((P ++ x :: T) ++ B) = (A ++ P) ++ x :: (T ++ B) := by
    simp [List.append_assoc]
  rw [hshape1, hshape2] at h3
  have hw : ∀ b ∈ A ++ P, b < 2 ^ 32 := by
    intro b hb
    rcases List.mem_append.1 hb with hb | hb
    · exact lt_trans (hA b hb) (by norm_num)
    · exact lt_trans (hP b hb) (by norm_num)
  have hw2 : ∀ b ∈ T ++ B, b < 2 ^ 32 := by
    intro b hb
    rcases List.mem_append.1 hb with hb | hb
    · exact lt_trans (hT b hb) (by norm_num)
    · exact lt_trans (hB b hb) (by norm_num)
  exact crcFold_single_diff (A ++ P) (T ++ B) (x ^^^ 2 ^ r) x
    (by norm_num) hw hw2
    (lt_trans (Nat.xor_lt_two_pow hx (Nat.pow_lt_pow_right (by norm_num) hr))
      (by norm_num))
    (lt_trans hx (by norm_num)) (xor_two_pow_ne x r) h3

/-- C8: for every 64-entry level vector with values in `[0, 255]`, saving it
to the battery-backed region (16 packed words plus a CRC-32 XOR-ed with
`0x0D1325AB`) and loading on a non-power-on reset restores exactly the same
64 levels with boot status `LOADED_OK`; flipping any single bit of the saved
words, or any bit of the stored CRC, makes the load report
`CHECKSUM_MISMATCH` and leave the levels untouched. -/
theorem c8_rtc_roundtrip_and_flip (levels dflt : Fin 64 → ℕ)
    (h : ∀ i, levels i ≤ 255) :
    loadRtcState false (saveRtcState levels) dflt = (BootRTC.loadedOk, levels)
    ∧ (∀ (j : Fin 16) (k : ℕ), k < 32 →
        loadRtcState false (flipWordBit (saveRtcState levels) j k) dflt
          = (BootRTC.checksumMismatch, dflt))
    ∧ (∀ k : ℕ,
        loadRtcState false (flipCrcBit (saveRtcState levels) k) dflt
          = (BootRTC.checksumMismatch, dflt)) := by
  refine ⟨?_, ?_, ?_⟩
  · rw [loadRtcState, if_neg Bool.false_ne_true,
      if_pos (show (saveRtcState levels).crc
        = rtcCrc (saveRtcState levels).words from rfl)]
    exact congrArg _ (funext fun i => extractLevel_packWord levels i h)
  · intro j k hk
    rw [loadRtcState, if_neg Bool.false_ne_true,
      if_neg (show ¬((flipWordBit (saveRtcState levels) j k).crc
          = rtcCrc (flipWordBit (saveRtcState levels) j k).words) from
        fun he => rtcCrc_flip_ne (fun j' => packWord levels j') j k hk
          (Eq.symm he))]
  · intro k
    rw [loadRtcState, if_neg Bool.false_ne_true,
      if_neg (show ¬((flipCrcBit (saveRtcState levels) k).crc
          = rtcCrc (flipCrcBit (saveRtcState levels) k).words) from
        fun he => xor_two_pow_ne (rtcCrc (fun j' => packWord levels j')) k he)]

/-- Witness for C8 at a concrete input: the level vector `i % 255` survives a
save/load round trip, and flipping bit 5 of word 2 or bit 9 of the CRC is
detected. -/
theorem c8_rtc_roundtrip_and_flip_witness :
    (∀ i : Fin 64, (fun i : Fin 64 => i.val % 255) i ≤ 255)
    ∧ loadRtcState false (saveRtcState (fun i => i.val % 255)) (fun _ => 0)
        = (BootRTC.loadedOk, fun i => i.val % 255)
    ∧ loadRtcState false (flipWordBit (saveRtcState (fun i => i.val % 255)) 2 5)
        (fun _ => 0) = (BootRTC.checksumMismatch, fun _ => 0)
    ∧ loadRtcState false (flipCrcBit (saveRtcState (fun i => i.val % 255)) 9)
        (fun _ => 0) = (BootRTC.checksumMismatch, fun _ => 0) :=
  ⟨fun i => Nat.le_of_lt (Nat.lt_of_lt_of_le (Nat.mod_lt _ (by norm_num)) (by norm_num)),
    (c8_rtc_roundtrip_and_flip (fun i => i.val % 255) (fun _ => 0)
      (fun i => Nat.le_of_lt (Nat.lt_of_lt_of_le (Nat.mod_lt _ (by norm_num))
        (by norm_num)))).1,
    (c8_rtc_roundtrip_and_flip (fun i => i.val % 255) (fun _ => 0)
      (fun i => Nat.le_of_lt (Nat.lt_of_lt_of_le (Nat.mod_lt _ (by norm_num))
        (by norm_num)))).2.1 2 5 (by norm_num),
    (c8_rtc_roundtrip_and_flip (fun i => i.val % 255) (fun _ => 0)
      (fun i => Nat.le_of_lt (Nat.lt_of_lt_of_le (Nat.mod_lt _ (by norm_num))
        (by norm_num)))).2.2 9⟩

end MqttDali
